import Mathlib

/-!
Verification of the octree / dense-voxel-grid occupancy mapping core.

The octree side embeds src/octree.py (OctreeNode, subdivide, update_log_odds,
insert_point), src/mapping.py (build_octree) and src/metrics.py
(count_octree_nodes, count_octree_occupied_leaves).  The grid side embeds
src/compare.py (DenseVoxelGrid).  Scalars are taken in an arbitrary linear
ordered field so that every structural statement can be instantiated both at
the real numbers (the program's floats, with the genuine logarithmic
constants) and at the rationals (for decidable evaluation on concrete inputs).
-/

set_option linter.unusedSectionVars false

/-- A 3D coordinate triple, standing for the numpy arrays of length 3 used by
the source. -/
structure Vec3 (α : Type) where
  x : α
  y : α
  z : α
deriving DecidableEq, Repr

/-- Componentwise addition, standing for numpy vector addition
(`self.center + off` in `subdivide`). -/
def vadd {α : Type} [Add α] (a b : Vec3 α) : Vec3 α :=
  ⟨a.x + b.x, a.y + b.y, a.z + b.z⟩

/-- The four module-level constants of src/octree.py, abstracted over the
scalar type.  The real program uses
L_OCC = log(0.7/(1-0.7)), L_FREE = log(0.4/(1-0.4)), CLAMP_MAX = 3.5,
CLAMP_MIN = -3.5 (see `octreeConstants` below). -/
structure OctParams (α : Type) where
  L_OCC : α
  L_FREE : α
  CLAMP_MAX : α
  CLAMP_MIN : α

/-- The constants exactly as computed at the top of src/octree.py. -/
noncomputable def octreeConstants : OctParams ℝ :=
  ⟨Real.log (0.7 / (1 - 0.7)), Real.log (0.4 / (1 - 0.4)), 3.5, -3.5⟩

/-- Rational stand-in constants used only to evaluate structural (shape)
statements on concrete inputs; the shape of the tree never depends on the
values of the four constants. -/
def ratParams : OctParams ℚ :=
  ⟨1, -1, 7 / 2, -7 / 2⟩

/-- An octree node: `leaf` is the state `is_leaf = True, children = [None]*8`
produced by `OctreeNode.__init__`; `node` is the state after `subdivide`,
with the 8 children stored in the order of the `offsets` list comprehension
(x outermost, then y, then z innermost). -/
inductive OctreeNode (α : Type) : Type where
  | leaf (center : Vec3 α) (size : α) (log_odds : α)
  | node (center : Vec3 α) (size : α) (log_odds : α)
      (k0 k1 k2 k3 k4 k5 k6 k7 : OctreeNode α)
deriving DecidableEq, Repr

namespace OctreeNode

variable {α : Type}

/-- The `center` attribute. -/
def center : OctreeNode α → Vec3 α
  | leaf c _ _ => c
  | node c _ _ _ _ _ _ _ _ _ _ => c

/-- The `size` attribute. -/
def size : OctreeNode α → α
  | leaf _ s _ => s
  | node _ s _ _ _ _ _ _ _ _ _ => s

/-- The `log_odds` attribute. -/
def log_odds : OctreeNode α → α
  | leaf _ _ l => l
  | node _ _ l _ _ _ _ _ _ _ _ => l

/-- The `is_leaf` attribute. -/
def is_leaf : OctreeNode α → Bool
  | leaf _ _ _ => true
  | node _ _ _ _ _ _ _ _ _ _ _ => false

/-- Replace the `log_odds` attribute (the assignment in `update_log_odds`). -/
def setLogOdds : OctreeNode α → α → OctreeNode α
  | leaf c s _, v => leaf c s v
  | node c s _ a b k2 k3 k4 k5 k6 k7, v => node c s v a b k2 k3 k4 k5 k6 k7

/-- The `children` list with `None` entries dropped: empty for a leaf
(`[None]*8`), the 8 children in order otherwise. -/
def childList : OctreeNode α → List (OctreeNode α)
  | leaf _ _ _ => []
  | node _ _ _ a b k2 k3 k4 k5 k6 k7 => [a, b, k2, k3, k4, k5, k6, k7]

/-- `OctreeNode(center, size)`: a fresh leaf with `log_odds = 0`. -/
def init [Zero α] (c : Vec3 α) (s : α) : OctreeNode α :=
  leaf c s 0

end OctreeNode

/-- The `offsets` list comprehension of `subdivide`:
`[[x, y, z] for x in [-q, q] for y in [-q, q] for z in [-q, q]]`. -/
def childOffsets {α : Type} [Neg α] (q : α) : List (Vec3 α) :=
  ([-q, q]).flatMap fun x => ([-q, q]).flatMap fun y => ([-q, q]).map fun z => ⟨x, y, z⟩

namespace OctreeNode

variable {α : Type} [LinearOrderedField α]

/-- `OctreeNode.subdivide`: allocate all 8 children (fresh leaves of half
size, centered at the `offsets` of a quarter size) and clear `is_leaf`. -/
def subdivide (n : OctreeNode α) : OctreeNode α :=
  let half := n.size / 2
  let quarter := n.size / 4
  node n.center n.size n.log_odds
    (leaf (vadd n.center ⟨-quarter, -quarter, -quarter⟩) half 0)
    (leaf (vadd n.center ⟨-quarter, -quarter, quarter⟩) half 0)
    (leaf (vadd n.center ⟨-quarter, quarter, -quarter⟩) half 0)
    (leaf (vadd n.center ⟨-quarter, quarter, quarter⟩) half 0)
    (leaf (vadd n.center ⟨quarter, -quarter, -quarter⟩) half 0)
    (leaf (vadd n.center ⟨quarter, -quarter, quarter⟩) half 0)
    (leaf (vadd n.center ⟨quarter, quarter, -quarter⟩) half 0)
    (leaf (vadd n.center ⟨quarter, quarter, quarter⟩) half 0)

/-- The children written out in `subdivide` are exactly the ones obtained by
mapping the `offsets` comprehension, in its iteration order. -/
theorem subdivide_childList (n : OctreeNode α) :
    (subdivide n).childList =
      (childOffsets (n.size / 4)).map fun off => leaf (vadd n.center off) (n.size / 2) 0 := by
  rfl

end OctreeNode

/-- The child-index computation of `insert_point`:
`idx |= (p.x > c.x); idx |= (p.y > c.y) << 1; idx |= (p.z > c.z) << 2`,
with Python booleans read as the integers 0/1. -/
def childIndex {α : Type} [LinearOrder α] (c p : Vec3 α) : ℕ :=
  ((if p.x > c.x then 1 else 0) : ℕ) |||
    ((if p.y > c.y then 1 else 0) <<< 1) |||
    ((if p.z > c.z then 1 else 0) <<< 2)

namespace OctreeNode

variable {α : Type} [LinearOrderedField α]

/-- `node.children[i]` (`none` both for a missing child and for an
out-of-range index). -/
def getChild (n : OctreeNode α) (i : ℕ) : Option (OctreeNode α) :=
  n.childList[i]?

/-- `getChild` with the node itself as (never used) fallback, so that the
descent of `insert_point` can be written as a total function. -/
def getChildD (n : OctreeNode α) (i : ℕ) : OctreeNode α :=
  (n.getChild i).getD n

/-- Replace child `i` (the in-place mutation of `node.children[idx]` implied
by descending and updating through the reference). -/
def setChild : OctreeNode α → ℕ → OctreeNode α → OctreeNode α
  | node c s l _ b k2 k3 k4 k5 k6 k7, 0, x => node c s l x b k2 k3 k4 k5 k6 k7
  | node c s l a _ k2 k3 k4 k5 k6 k7, 1, x => node c s l a x k2 k3 k4 k5 k6 k7
  | node c s l a b _ k3 k4 k5 k6 k7, 2, x => node c s l a b x k3 k4 k5 k6 k7
  | node c s l a b k2 _ k4 k5 k6 k7, 3, x => node c s l a b k2 x k4 k5 k6 k7
  | node c s l a b k2 k3 _ k5 k6 k7, 4, x => node c s l a b k2 k3 x k5 k6 k7
  | node c s l a b k2 k3 k4 _ k6 k7, 5, x => node c s l a b k2 k3 k4 x k6 k7
  | node c s l a b k2 k3 k4 k5 _ k7, 6, x => node c s l a b k2 k3 k4 k5 x k7
  | node c s l a b k2 k3 k4 k5 k6 _, 7, x => node c s l a b k2 k3 k4 k5 k6 x
  | n, _, _ => n

end OctreeNode

/-- `update_log_odds`: add `L_OCC` or `L_FREE`, then clamp with
`min(max(value, CLAMP_MIN), CLAMP_MAX)`. -/
def update_log_odds {α : Type} [LinearOrderedField α] (P : OctParams α)
    (n : OctreeNode α) (is_occupied : Bool) : OctreeNode α :=
  let v := n.log_odds + (if is_occupied then P.L_OCC else P.L_FREE)
  n.setLogOdds (min (max v P.CLAMP_MIN) P.CLAMP_MAX)

/-- `insert_point`: descend `depth_limit` levels from `root`, subdividing any
leaf encountered, choosing `children[idx]` by `childIndex` at every level,
then register an occupied observation at the node reached. -/
def insert_point {α : Type} [LinearOrderedField α] (P : OctParams α) :
    OctreeNode α → Vec3 α → ℕ → OctreeNode α
  | n, _, 0 => update_log_odds P n true
  | n, p, d + 1 =>
    let m := if n.is_leaf then n.subdivide else n
    let i := childIndex m.center p
    m.setChild i (insert_point P (m.getChildD i) p d)

/-- `insert_point` with a Python-int depth limit: `for _ in range(d)` runs
`max d 0` iterations, so a negative limit means no descent at all. -/
def insert_point_int {α : Type} [LinearOrderedField α] (P : OctParams α)
    (n : OctreeNode α) (p : Vec3 α) (depth_limit : ℤ) : OctreeNode α :=
  insert_point P n p depth_limit.toNat

/-- `build_octree` from src/mapping.py: fold `insert_point` over the points,
starting from a fresh root. -/
def build_octree {α : Type} [LinearOrderedField α] (P : OctParams α)
    (points : List (Vec3 α)) (depth : ℕ) (bbox_center : Vec3 α) (bbox_size : α) :
    OctreeNode α :=
  points.foldl (fun r p => insert_point P r p depth) (OctreeNode.init bbox_center bbox_size)

/-- An arbitrary sequence of `insert_point` calls (point and depth limit free
at every step) starting from a given tree. -/
def insert_many {α : Type} [LinearOrderedField α] (P : OctParams α)
    (n : OctreeNode α) (l : List (Vec3 α × ℕ)) : OctreeNode α :=
  l.foldl (fun r pd => insert_point P r pd.1 pd.2) n

/-- `count_octree_nodes` from src/metrics.py: every node, internal or leaf,
counts once (the source's explicit stack is an arbitrary-order traversal). -/
def count_octree_nodes {α : Type} : OctreeNode α → ℕ
  | .leaf _ _ _ => 1
  | .node _ _ _ a b k2 k3 k4 k5 k6 k7 =>
    1 + count_octree_nodes a + count_octree_nodes b + count_octree_nodes k2 +
      count_octree_nodes k3 + count_octree_nodes k4 + count_octree_nodes k5 +
      count_octree_nodes k6 + count_octree_nodes k7

/-- `count_octree_occupied_leaves` from src/metrics.py: leaves with
`log_odds > 0`. -/
def count_octree_occupied_leaves {α : Type} [LinearOrder α] [Zero α] : OctreeNode α → ℕ
  | .leaf _ _ l => if l > 0 then 1 else 0
  | .node _ _ _ a b k2 k3 k4 k5 k6 k7 =>
    count_octree_occupied_leaves a + count_octree_occupied_leaves b +
      count_octree_occupied_leaves k2 + count_octree_occupied_leaves k3 +
      count_octree_occupied_leaves k4 + count_octree_occupied_leaves k5 +
      count_octree_occupied_leaves k6 + count_octree_occupied_leaves k7

/-- Follow a list of child indices down the tree. -/
def nodeAt {α : Type} [LinearOrderedField α] : OctreeNode α → List ℕ → Option (OctreeNode α)
  | n, [] => some n
  | n, i :: q =>
    match n.getChild i with
    | none => none
    | some c => nodeAt c q

/-- The root-to-target descent path actually taken by `insert_point` on a
given tree (the successive values of `idx`). -/
def insertTrace {α : Type} [LinearOrderedField α] : OctreeNode α → Vec3 α → ℕ → List ℕ
  | _, _, 0 => []
  | n, p, d + 1 =>
    let m := if n.is_leaf then n.subdivide else n
    let i := childIndex m.center p
    i :: insertTrace (m.getChildD i) p d

/-- The node that `insert_point` applies its log-odds update to, as it is
just before the update (the value of `node` after the descent loop). -/
def targetNode {α : Type} [LinearOrderedField α] : OctreeNode α → Vec3 α → ℕ → OctreeNode α
  | n, _, 0 => n
  | n, p, d + 1 =>
    let m := if n.is_leaf then n.subdivide else n
    let i := childIndex m.center p
    targetNode (m.getChildD i) p d

/-- Center of the `i`-th child cell of a cell centered at `c` with edge `s`,
in the child order of `subdivide`. -/
def childCenter {α : Type} [LinearOrderedField α] (c : Vec3 α) (s : α) (i : ℕ) : Vec3 α :=
  vadd c ((childOffsets (s / 4)).getD i ⟨0, 0, 0⟩)

/-- The descent path determined purely by the geometry (root center and size
and the point), independent of any tree state. -/
def descentPath {α : Type} [LinearOrderedField α] (c : Vec3 α) (s : α) (p : Vec3 α) :
    ℕ → List ℕ
  | 0 => []
  | d + 1 =>
    let i := childIndex c p
    i :: descentPath (childCenter c s i) (s / 2) p d

/-- All index paths to nodes of the tree (one per node). -/
def allPaths {α : Type} : OctreeNode α → List (List ℕ)
  | .leaf _ _ _ => [[]]
  | .node _ _ _ a b k2 k3 k4 k5 k6 k7 =>
    [] :: ((allPaths a).map (0 :: ·) ++ (allPaths b).map (1 :: ·) ++
      (allPaths k2).map (2 :: ·) ++ (allPaths k3).map (3 :: ·) ++
      (allPaths k4).map (4 :: ·) ++ (allPaths k5).map (5 :: ·) ++
      (allPaths k6).map (6 :: ·) ++ (allPaths k7).map (7 :: ·))

/-- The subdivide-if-leaf step at the top of each loop iteration of
`insert_point`. -/
def prep {α : Type} [LinearOrderedField α] (n : OctreeNode α) : OctreeNode α :=
  if n.is_leaf then n.subdivide else n

/-- Geometric consistency: every node of the tree has the center and size
dictated by the root cell and its index path (cells halve per level and
children sit at the `subdivide` offsets). -/
def GeomOK {α : Type} [LinearOrderedField α] : Vec3 α → α → OctreeNode α → Prop
  | c, s, .leaf c' s' _ => c' = c ∧ s' = s
  | c, s, .node c' s' _ k0 k1 k2 k3 k4 k5 k6 k7 =>
    c' = c ∧ s' = s ∧
      GeomOK (childCenter c s 0) (s / 2) k0 ∧ GeomOK (childCenter c s 1) (s / 2) k1 ∧
      GeomOK (childCenter c s 2) (s / 2) k2 ∧ GeomOK (childCenter c s 3) (s / 2) k3 ∧
      GeomOK (childCenter c s 4) (s / 2) k4 ∧ GeomOK (childCenter c s 5) (s / 2) k5 ∧
      GeomOK (childCenter c s 6) (s / 2) k6 ∧ GeomOK (childCenter c s 7) (s / 2) k7

/-- Uniform-depth bound: every node sitting `d` levels below this one (or
deeper) is a leaf.  A tree built by insertions that all use depth limit `d`
satisfies `UD d`. -/
def UD {α : Type} : ℕ → OctreeNode α → Prop
  | 0, n => n.is_leaf = true
  | _ + 1, .leaf _ _ _ => True
  | d + 1, .node _ _ _ k0 k1 k2 k3 k4 k5 k6 k7 =>
    UD d k0 ∧ UD d k1 ∧ UD d k2 ∧ UD d k3 ∧ UD d k4 ∧ UD d k5 ∧ UD d k6 ∧ UD d k7

/-- All `log_odds` values stored anywhere in the tree lie in `[lo, hi]`. -/
def oddsBounded {α : Type} [LinearOrder α] (lo hi : α) : OctreeNode α → Prop
  | .leaf _ _ l => lo ≤ l ∧ l ≤ hi
  | .node _ _ l k0 k1 k2 k3 k4 k5 k6 k7 =>
    (lo ≤ l ∧ l ≤ hi) ∧
      oddsBounded lo hi k0 ∧ oddsBounded lo hi k1 ∧ oddsBounded lo hi k2 ∧
      oddsBounded lo hi k3 ∧ oddsBounded lo hi k4 ∧ oddsBounded lo hi k5 ∧
      oddsBounded lo hi k6 ∧ oddsBounded lo hi k7

/-! ## Dense voxel grid (src/compare.py) -/

/-- `DenseVoxelGrid._point_to_voxel_index`: floor of the componentwise
offset from the grid minimum corner divided by the voxel size. -/
def point_to_voxel_index {α : Type} [LinearOrderedField α] [FloorRing α]
    (grid_min : Vec3 α) (voxel_size : α) (p : Vec3 α) : ℤ × ℤ × ℤ :=
  (⌊(p.x - grid_min.x) / voxel_size⌋, ⌊(p.y - grid_min.y) / voxel_size⌋,
    ⌊(p.z - grid_min.z) / voxel_size⌋)

/-- One step of `_build_grid`: `self.voxels[idx] = self.voxels.get(idx, 0) + 1`,
on the insertion-ordered association list representing the Python dict. -/
def bumpVoxel : List ((ℤ × ℤ × ℤ) × ℕ) → ℤ × ℤ × ℤ → List ((ℤ × ℤ × ℤ) × ℕ)
  | [], i => [(i, 1)]
  | (j, c) :: rest, i => if j = i then (j, c + 1) :: rest else (j, c) :: bumpVoxel rest i

/-- The value `self.voxels.get(idx, 0)` of the dict. -/
def voxelGet : List ((ℤ × ℤ × ℤ) × ℕ) → ℤ × ℤ × ℤ → ℕ
  | [], _ => 0
  | (j, c) :: rest, i => if j = i then c else voxelGet rest i

/-- Whether `idx in self.voxels`. -/
def voxelHasKey : List ((ℤ × ℤ × ℤ) × ℕ) → ℤ × ℤ × ℤ → Bool
  | [], _ => false
  | (j, _) :: rest, i => j = i || voxelHasKey rest i

/-- `DenseVoxelGrid` with a caller-supplied bounding box: `voxel_size`,
`grid_min = bbox_center - bbox_size/2`, and the dict of voxel counts. -/
structure DenseVoxelGrid (α : Type) where
  voxel_size : α
  grid_min : Vec3 α
  voxels : List ((ℤ × ℤ × ℤ) × ℕ)

/-- `self.grid_min = self.bbox_center - half_size` where
`half_size = bbox_size / 2.0`. -/
def grid_min_of {α : Type} [LinearOrderedField α] (bbox_center : Vec3 α)
    (bbox_size : α) : Vec3 α :=
  ⟨bbox_center.x - bbox_size / 2, bbox_center.y - bbox_size / 2,
    bbox_center.z - bbox_size / 2⟩

/-- `DenseVoxelGrid.__init__` with explicit `bbox_center`/`bbox_size`
followed by `_build_grid(points)`. -/
def denseVoxelGrid {α : Type} [LinearOrderedField α] [FloorRing α]
    (points : List (Vec3 α)) (voxel_size : α) (bbox_center : Vec3 α) (bbox_size : α) :
    DenseVoxelGrid α :=
  { voxel_size := voxel_size
    grid_min := grid_min_of bbox_center bbox_size
    voxels := points.foldl
      (fun m p =>
        bumpVoxel m (point_to_voxel_index (grid_min_of bbox_center bbox_size) voxel_size p))
      [] }

/-- `get_voxel_count`: `len(self.voxels)`. -/
def get_voxel_count {α : Type} (g : DenseVoxelGrid α) : ℕ :=
  g.voxels.length

/-- `get_total_points`: `sum(self.voxels.values())`. -/
def get_total_points {α : Type} (g : DenseVoxelGrid α) : ℕ :=
  (g.voxels.map Prod.snd).sum

/-- The voxel-index-to-count mapping the grid realizes (`0` when absent). -/
def gridCount {α : Type} (g : DenseVoxelGrid α) (i : ℤ × ℤ × ℤ) : ℕ :=
  voxelGet g.voxels i

/-- The tree the spec's C5 scenario predicts: after inserting (1,1,1) with
depth limit 1 into a root centered at (0,0,0) with size 10, the root is
internal with 8 leaf children of size 5, and the child centered at
(2.5, 2.5, 2.5) carries log-odds ln(0.7/0.3). -/
noncomputable def c5ScenarioTree : OctreeNode ℝ :=
  OctreeNode.node ⟨0, 0, 0⟩ 10 0
    (OctreeNode.leaf ⟨-(5 / 2), -(5 / 2), -(5 / 2)⟩ 5 0)
    (OctreeNode.leaf ⟨-(5 / 2), -(5 / 2), 5 / 2⟩ 5 0)
    (OctreeNode.leaf ⟨-(5 / 2), 5 / 2, -(5 / 2)⟩ 5 0)
    (OctreeNode.leaf ⟨-(5 / 2), 5 / 2, 5 / 2⟩ 5 0)
    (OctreeNode.leaf ⟨5 / 2, -(5 / 2), -(5 / 2)⟩ 5 0)
    (OctreeNode.leaf ⟨5 / 2, -(5 / 2), 5 / 2⟩ 5 0)
    (OctreeNode.leaf ⟨5 / 2, 5 / 2, -(5 / 2)⟩ 5 0)
    (OctreeNode.leaf ⟨5 / 2, 5 / 2, 5 / 2⟩ 5 (Real.log (0.7 / 0.3)))

/-! ## Basic simp lemmas about the embedded operations -/

section Lemmas

variable {α : Type} [LinearOrderedField α] {P : OctParams α}

theorem insert_point_zero (n : OctreeNode α) (p : Vec3 α) :
    insert_point P n p 0 = update_log_odds P n true := rfl

theorem insert_point_succ (n : OctreeNode α) (p : Vec3 α) (d : ℕ) :
    insert_point P n p (d + 1) =
      (prep n).setChild (childIndex (prep n).center p)
        (insert_point P ((prep n).getChildD (childIndex (prep n).center p)) p d) := rfl

theorem insertTrace_zero (n : OctreeNode α) (p : Vec3 α) :
    insertTrace n p 0 = [] := rfl

theorem insertTrace_succ (n : OctreeNode α) (p : Vec3 α) (d : ℕ) :
    insertTrace n p (d + 1) =
      childIndex (prep n).center p ::
        insertTrace ((prep n).getChildD (childIndex (prep n).center p)) p d := rfl

theorem targetNode_zero (n : OctreeNode α) (p : Vec3 α) :
    targetNode n p 0 = n := rfl

theorem targetNode_succ (n : OctreeNode α) (p : Vec3 α) (d : ℕ) :
    targetNode n p (d + 1) =
      targetNode ((prep n).getChildD (childIndex (prep n).center p)) p d := rfl

@[simp] theorem center_leaf (c : Vec3 α) (s l : α) : (OctreeNode.leaf c s l).center = c := rfl

@[simp] theorem center_node (c : Vec3 α) (s l : α) (k0 k1 k2 k3 k4 k5 k6 k7 : OctreeNode α) :
    (OctreeNode.node c s l k0 k1 k2 k3 k4 k5 k6 k7).center = c := rfl

@[simp] theorem size_leaf (c : Vec3 α) (s l : α) : (OctreeNode.leaf c s l).size = s := rfl

@[simp] theorem size_node (c : Vec3 α) (s l : α) (k0 k1 k2 k3 k4 k5 k6 k7 : OctreeNode α) :
    (OctreeNode.node c s l k0 k1 k2 k3 k4 k5 k6 k7).size = s := rfl

@[simp] theorem log_odds_leaf (c : Vec3 α) (s l : α) :
    (OctreeNode.leaf c s l).log_odds = l := rfl

@[simp] theorem log_odds_node (c : Vec3 α) (s l : α) (k0 k1 k2 k3 k4 k5 k6 k7 : OctreeNode α) :
    (OctreeNode.node c s l k0 k1 k2 k3 k4 k5 k6 k7).log_odds = l := rfl

@[simp] theorem is_leaf_leaf (c : Vec3 α) (s l : α) :
    (OctreeNode.leaf c s l).is_leaf = true := rfl

@[simp] theorem is_leaf_node (c : Vec3 α) (s l : α) (k0 k1 k2 k3 k4 k5 k6 k7 : OctreeNode α) :
    (OctreeNode.node c s l k0 k1 k2 k3 k4 k5 k6 k7).is_leaf = false := rfl

theorem childIndex_lt (c p : Vec3 α) : childIndex c p < 8 := by
  unfold childIndex
  split <;> split <;> split <;> decide

@[simp] theorem getChild_leaf (c : Vec3 α) (s l : α) (i : ℕ) :
    (OctreeNode.leaf c s l).getChild i = none := by
  simp [OctreeNode.getChild, OctreeNode.childList]

theorem setChild_of_is_leaf {n : OctreeNode α} (h : n.is_leaf = true) (i : ℕ)
    (x : OctreeNode α) : n.setChild i x = n := by
  cases n with
  | leaf c s l => rcases i with _ | _ | _ | _ | _ | _ | _ | _ | i <;> rfl
  | node => simp [OctreeNode.is_leaf] at h

theorem getChild_setChild_self {n : OctreeNode α} (h : n.is_leaf = false) {i : ℕ}
    (hi : i < 8) (x : OctreeNode α) : (n.setChild i x).getChild i = some x := by
  cases n with
  | leaf c s l => simp [OctreeNode.is_leaf] at h
  | node c s l k0 k1 k2 k3 k4 k5 k6 k7 =>
    interval_cases i <;> rfl

theorem getChild_setChild_ne (n : OctreeNode α) {i j : ℕ} (h : i ≠ j)
    (x : OctreeNode α) : (n.setChild i x).getChild j = n.getChild j := by
  cases n with
  | leaf c s l =>
    rcases i with _ | _ | _ | _ | _ | _ | _ | _ | i <;> rfl
  | node c s l k0 k1 k2 k3 k4 k5 k6 k7 =>
    rcases Nat.lt_or_ge i 8 with hi | hi
    · interval_cases i <;>
        (rcases j with _ | _ | _ | _ | _ | _ | _ | _ | j <;> simp_all <;> rfl)
    · rcases i with _ | _ | _ | _ | _ | _ | _ | _ | i <;> first | omega | rfl

@[simp] theorem setChild_center (n : OctreeNode α) (i : ℕ) (x : OctreeNode α) :
    (n.setChild i x).center = n.center := by
  cases n <;> rcases i with _ | _ | _ | _ | _ | _ | _ | _ | i <;> rfl

@[simp] theorem setChild_size (n : OctreeNode α) (i : ℕ) (x : OctreeNode α) :
    (n.setChild i x).size = n.size := by
  cases n <;> rcases i with _ | _ | _ | _ | _ | _ | _ | _ | i <;> rfl

@[simp] theorem setChild_log_odds (n : OctreeNode α) (i : ℕ) (x : OctreeNode α) :
    (n.setChild i x).log_odds = n.log_odds := by
  cases n <;> rcases i with _ | _ | _ | _ | _ | _ | _ | _ | i <;> rfl

theorem setChild_is_leaf {n : OctreeNode α} (h : n.is_leaf = false) (i : ℕ)
    (x : OctreeNode α) : (n.setChild i x).is_leaf = false := by
  cases n with
  | leaf c s l => simp [OctreeNode.is_leaf] at h
  | node c s l k0 k1 k2 k3 k4 k5 k6 k7 =>
    rcases i with _ | _ | _ | _ | _ | _ | _ | _ | i <;> rfl

@[simp] theorem subdivide_center (n : OctreeNode α) : n.subdivide.center = n.center := rfl

@[simp] theorem subdivide_size (n : OctreeNode α) : n.subdivide.size = n.size := rfl

@[simp] theorem subdivide_log_odds (n : OctreeNode α) : n.subdivide.log_odds = n.log_odds := rfl

@[simp] theorem subdivide_is_leaf (n : OctreeNode α) : n.subdivide.is_leaf = false := rfl

theorem getChild_subdivide (n : OctreeNode α) {i : ℕ} (hi : i < 8) :
    n.subdivide.getChild i =
      some (OctreeNode.leaf (childCenter n.center n.size i) (n.size / 2) 0) := by
  interval_cases i <;>
    simp [OctreeNode.subdivide, OctreeNode.getChild, OctreeNode.childList, childCenter,
      childOffsets, vadd]

@[simp] theorem update_center (n : OctreeNode α) (o : Bool) :
    (update_log_odds P n o).center = n.center := by
  cases n <;> rfl

@[simp] theorem update_size (n : OctreeNode α) (o : Bool) :
    (update_log_odds P n o).size = n.size := by
  cases n <;> rfl

@[simp] theorem update_is_leaf (n : OctreeNode α) (o : Bool) :
    (update_log_odds P n o).is_leaf = n.is_leaf := by
  cases n <;> rfl

@[simp] theorem update_getChild (n : OctreeNode α) (o : Bool) (i : ℕ) :
    (update_log_odds P n o).getChild i = n.getChild i := by
  cases n <;> rfl

theorem update_log_odds_val (n : OctreeNode α) (o : Bool) :
    (update_log_odds P n o).log_odds =
      min (max (n.log_odds + (if o then P.L_OCC else P.L_FREE)) P.CLAMP_MIN) P.CLAMP_MAX := by
  cases n <;> rfl

@[simp] theorem prep_center (n : OctreeNode α) : (prep n).center = n.center := by
  unfold prep; split <;> simp

@[simp] theorem prep_size (n : OctreeNode α) : (prep n).size = n.size := by
  unfold prep; split <;> simp

@[simp] theorem prep_is_leaf (n : OctreeNode α) : (prep n).is_leaf = false := by
  cases n <;> simp [prep]

theorem prep_of_not_leaf {n : OctreeNode α} (h : n.is_leaf = false) : prep n = n := by
  simp [prep, h]

theorem prep_of_leaf {n : OctreeNode α} (h : n.is_leaf = true) : prep n = n.subdivide := by
  simp [prep, h]

@[simp] theorem nodeAt_nil (n : OctreeNode α) : nodeAt n [] = some n := rfl

theorem nodeAt_cons_some {n c : OctreeNode α} {i : ℕ} (h : n.getChild i = some c)
    (q : List ℕ) : nodeAt n (i :: q) = nodeAt c q := by
  simp [nodeAt, h]

theorem nodeAt_cons_none {n : OctreeNode α} {i : ℕ} (h : n.getChild i = none)
    (q : List ℕ) : nodeAt n (i :: q) = none := by
  simp [nodeAt, h]

theorem getChild_isSome_of_cons {n : OctreeNode α} {i : ℕ} {q : List ℕ} {m : OctreeNode α}
    (h : nodeAt n (i :: q) = some m) : ∃ c, n.getChild i = some c ∧ nodeAt c q = some m := by
  rcases hc : n.getChild i with _ | c
  · rw [nodeAt_cons_none hc] at h; exact absurd h (by simp)
  · exact ⟨c, rfl, by rwa [nodeAt_cons_some hc] at h⟩

end Lemmas

/-! ## Node counting -/

section Counting

variable {α : Type} [LinearOrderedField α] {P : OctParams α}

@[simp] theorem countNodes_update (n : OctreeNode α) (o : Bool) :
    count_octree_nodes (update_log_odds P n o) = count_octree_nodes n := by
  cases n <;> rfl

theorem countNodes_setChild {n : OctreeNode α} (h : n.is_leaf = false) {i : ℕ} (hi : i < 8)
    (x : OctreeNode α) :
    count_octree_nodes (n.setChild i x) + count_octree_nodes (n.getChildD i) =
      count_octree_nodes n + count_octree_nodes x := by
  cases n with
  | leaf c s l => simp [OctreeNode.is_leaf] at h
  | node c s l k0 k1 k2 k3 k4 k5 k6 k7 =>
    interval_cases i <;>
      simp [OctreeNode.setChild, OctreeNode.getChildD, OctreeNode.getChild,
        OctreeNode.childList, count_octree_nodes] <;> omega

theorem countNodes_prep (n : OctreeNode α) :
    count_octree_nodes (prep n) =
      count_octree_nodes n + (if n.is_leaf then 8 else 0) := by
  cases n <;> simp [prep, OctreeNode.subdivide, count_octree_nodes, OctreeNode.is_leaf]

/-- Each call of `insert_point` adds `8 * m` nodes for some `m ≤ depth_limit`
(one batch of 8 per subdivision performed). -/
theorem countNodes_insert_point (d : ℕ) (n : OctreeNode α) (p : Vec3 α) :
    ∃ m ≤ d, count_octree_nodes (insert_point P n p d) = count_octree_nodes n + 8 * m := by
  induction d generalizing n with
  | zero => exact ⟨0, le_refl 0, by simp [insert_point_zero]⟩
  | succ d ih =>
    rw [insert_point_succ]
    obtain ⟨m, hm, hcount⟩ := ih ((prep n).getChildD (childIndex (prep n).center p))
    have hset := countNodes_setChild (prep_is_leaf n)
      (childIndex_lt (prep n).center p)
      (insert_point P ((prep n).getChildD (childIndex (prep n).center p)) p d)
    have hprep := countNodes_prep n
    cases hl : n.is_leaf with
    | true => exact ⟨m + 1, by omega, by simp [hl] at hprep; omega⟩
    | false => exact ⟨m, by omega, by simp [hl] at hprep; omega⟩

theorem countNodes_insert_point_le (d : ℕ) (n : OctreeNode α) (p : Vec3 α) :
    count_octree_nodes (insert_point P n p d) ≤ count_octree_nodes n + 8 * d := by
  obtain ⟨m, hm, h⟩ := @countNodes_insert_point α _ P d n p
  omega

theorem countNodes_insert_many (n : OctreeNode α) (l : List (Vec3 α × ℕ)) :
    ∃ k, count_octree_nodes (insert_many P n l) = count_octree_nodes n + 8 * k := by
  induction l generalizing n with
  | nil => exact ⟨0, by simp [insert_many]⟩
  | cons pd rest ih =>
    obtain ⟨m, _, h1⟩ := @countNodes_insert_point α _ P pd.2 n pd.1
    obtain ⟨k, h2⟩ := ih (insert_point P n pd.1 pd.2)
    exact ⟨m + k, by simp only [insert_many, List.foldl_cons] at h2 ⊢; omega⟩

theorem countNodes_build_le (pts : List (Vec3 α)) (d : ℕ) (c : Vec3 α) (s : α) :
    count_octree_nodes (build_octree P pts d c s) ≤ 1 + pts.length * d * 8 := by
  suffices h : ∀ (t : OctreeNode α),
      count_octree_nodes (pts.foldl (fun r p => insert_point P r p d) t) ≤
        count_octree_nodes t + pts.length * d * 8 by
    have := h (OctreeNode.init c s)
    simpa [build_octree, OctreeNode.init, count_octree_nodes] using this
  induction pts with
  | nil => simp
  | cons p rest ih =>
    intro t
    calc count_octree_nodes (rest.foldl (fun r p => insert_point P r p d)
            (insert_point P t p d)) ≤
          count_octree_nodes (insert_point P t p d) + rest.length * d * 8 := ih _
      _ ≤ count_octree_nodes t + (p :: rest).length * d * 8 := by
          have := @countNodes_insert_point_le α _ P d t p
          simp only [List.length_cons]
          have : count_octree_nodes (insert_point P t p d) ≤
              count_octree_nodes t + 8 * d := this
          nlinarith

end Counting

/-! ## The descent path of an insertion -/

section Descent

variable {α : Type} [LinearOrderedField α] {P : OctParams α}

theorem getChildD_eq {n c : OctreeNode α} {i : ℕ} (h : n.getChild i = some c) :
    n.getChildD i = c := by
  simp [OctreeNode.getChildD, h]

theorem getChild_isSome_of_node {n : OctreeNode α} (h : n.is_leaf = false) {i : ℕ}
    (hi : i < 8) : ∃ c, n.getChild i = some c := by
  cases n with
  | leaf c s l => simp [OctreeNode.is_leaf] at h
  | node c s l k0 k1 k2 k3 k4 k5 k6 k7 =>
    interval_cases i <;> exact ⟨_, rfl⟩

@[simp] theorem prep_log_odds (n : OctreeNode α) : (prep n).log_odds = n.log_odds := by
  unfold prep; split <;> simp

theorem insertTrace_length (d : ℕ) (n : OctreeNode α) (p : Vec3 α) :
    (insertTrace n p d).length = d := by
  induction d generalizing n with
  | zero => rfl
  | succ d ih => simp [insertTrace_succ, ih]

theorem nodeAt_insert_point_trace (d : ℕ) (n : OctreeNode α) (p : Vec3 α) :
    nodeAt (insert_point P n p d) (insertTrace n p d) =
      some (update_log_odds P (targetNode n p d) true) := by
  induction d generalizing n with
  | zero => simp [insert_point_zero, insertTrace_zero, targetNode_zero]
  | succ d ih =>
    rw [insert_point_succ, insertTrace_succ, targetNode_succ]
    exact (nodeAt_cons_some
      (getChild_setChild_self (prep_is_leaf n) (childIndex_lt (prep n).center p) _) _).trans
      (ih _)

theorem is_leaf_false_of_getChild {n : OctreeNode α} {i : ℕ} {c : OctreeNode α}
    (h : n.getChild i = some c) : n.is_leaf = false := by
  cases n with
  | leaf c' s' l' => simp at h
  | node => rfl

/-- Frame property, off-path part: a node that existed before the insertion
and whose index path is not a prefix of the descent path is completely
unchanged (its whole subtree included). -/
theorem nodeAt_insert_point_off_path {d : ℕ} {n : OctreeNode α} {p : Vec3 α}
    {q : List ℕ} {x : OctreeNode α} (hx : nodeAt n q = some x)
    (hq : ¬ q <+: insertTrace n p d) :
    nodeAt (insert_point P n p d) q = some x := by
  induction d generalizing n q with
  | zero =>
    cases q with
    | nil => exact absurd List.nil_prefix hq
    | cons j q' =>
      obtain ⟨c, hc, hrest⟩ := getChild_isSome_of_cons hx
      rw [insert_point_zero, nodeAt_cons_some (by rw [update_getChild]; exact hc)]
      exact hrest
  | succ d ih =>
    cases q with
    | nil => exact absurd List.nil_prefix hq
    | cons j q' =>
      obtain ⟨c, hc, hrest⟩ := getChild_isSome_of_cons hx
      have hnl : n.is_leaf = false := is_leaf_false_of_getChild hc
      rw [insert_point_succ, prep_of_not_leaf hnl]
      rw [insertTrace_succ, prep_of_not_leaf hnl] at hq
      by_cases hji : j = childIndex n.center p
      · rw [hji] at hc ⊢
        have hq2 : ¬ q' <+: insertTrace (n.getChildD (childIndex n.center p)) p d :=
          fun hpre => hq (by rw [hji]; exact List.cons_prefix_cons.mpr ⟨rfl, hpre⟩)
        rw [nodeAt_cons_some (getChild_setChild_self hnl (childIndex_lt n.center p) _)]
        rw [getChildD_eq hc] at hq2 ⊢
        exact ih hrest hq2
      · rw [nodeAt_cons_some (by
          rw [getChild_setChild_ne n (fun h => hji h.symm) _]; exact hc)]
        exact hrest

/-- Frame property, on-path part: a node that existed before the insertion
and lies strictly on the descent path keeps its center, size and log-odds
value (only its leaf status and children can change, by subdivision). -/
theorem nodeAt_insert_point_on_path {d : ℕ} {n : OctreeNode α} {p : Vec3 α}
    {q : List ℕ} {x : OctreeNode α} (hx : nodeAt n q = some x)
    (hq : q <+: insertTrace n p d) (hne : q ≠ insertTrace n p d) :
    ∃ y, nodeAt (insert_point P n p d) q = some y ∧
      y.center = x.center ∧ y.size = x.size ∧ y.log_odds = x.log_odds := by
  induction d generalizing n q with
  | zero =>
    rw [insertTrace_zero] at hq hne
    have hq0 := List.prefix_nil.mp hq
    exact absurd hq0 hne
  | succ d ih =>
    cases q with
    | nil =>
      rw [nodeAt_nil] at hx
      injection hx with hx
      subst hx
      refine ⟨_, nodeAt_nil _, ?_, ?_, ?_⟩ <;>
        rw [insert_point_succ] <;> simp
    | cons j q' =>
      obtain ⟨c, hc, hrest⟩ := getChild_isSome_of_cons hx
      have hnl : n.is_leaf = false := is_leaf_false_of_getChild hc
      rw [insertTrace_succ, prep_of_not_leaf hnl] at hq hne
      rw [List.cons_prefix_cons] at hq
      obtain ⟨hj, hq'⟩ := hq
      rw [hj] at hc hne ⊢
      have hne' : q' ≠ insertTrace (n.getChildD (childIndex n.center p)) p d :=
        fun h => hne (by rw [h])
      rw [insert_point_succ, prep_of_not_leaf hnl, getChildD_eq hc]
      rw [getChildD_eq hc] at hq' hne'
      obtain ⟨y, hy, hyc, hys, hyl⟩ := ih hrest hq' hne'
      exact ⟨y, (nodeAt_cons_some
        (getChild_setChild_self hnl (childIndex_lt n.center p) _) _).trans hy, hyc, hys, hyl⟩

/-- The tree only grows: every index path valid before an insertion is still
valid after it. -/
theorem nodeAt_isSome_insert_point (d : ℕ) (n : OctreeNode α) (p : Vec3 α)
    {q : List ℕ} (h : (nodeAt n q).isSome) :
    (nodeAt (insert_point P n p d) q).isSome := by
  obtain ⟨x, hx⟩ := Option.isSome_iff_exists.mp h
  by_cases hq : q <+: insertTrace n p d
  · by_cases hne : q = insertTrace n p d
    · subst hne
      rw [nodeAt_insert_point_trace]
      rfl
    · obtain ⟨y, hy, -⟩ := @nodeAt_insert_point_on_path α _ P d n p q x hx hq hne
      simp [hy]
  · simp [@nodeAt_insert_point_off_path α _ P d n p q x hx hq]

/-- If the full descent path already existed in the tree, the node found
there is exactly the one the update is applied to. -/
theorem targetNode_eq_of_nodeAt_trace {d : ℕ} {n : OctreeNode α} {p : Vec3 α}
    {y : OctreeNode α} (h : nodeAt n (insertTrace n p d) = some y) :
    targetNode n p d = y := by
  induction d generalizing n with
  | zero =>
    rw [targetNode_zero]
    rw [insertTrace_zero, nodeAt_nil] at h
    exact Option.some_injective _ h
  | succ d ih =>
    rw [insertTrace_succ] at h
    obtain ⟨c, hc, hrest⟩ := getChild_isSome_of_cons h
    have hnl : n.is_leaf = false := is_leaf_false_of_getChild hc
    rw [prep_of_not_leaf hnl] at hc hrest
    rw [targetNode_succ, prep_of_not_leaf hnl, getChildD_eq hc]
    apply ih
    rwa [getChildD_eq hc] at hrest

end Descent

/-! ## Geometric consistency and the uniform-depth invariant -/

section Invariants

variable {α : Type} [LinearOrderedField α] {P : OctParams α}

theorem GeomOK_center {c : Vec3 α} {s : α} {n : OctreeNode α} (h : GeomOK c s n) :
    n.center = c := by
  cases n with
  | leaf => exact h.1
  | node => exact h.1

theorem GeomOK_size {c : Vec3 α} {s : α} {n : OctreeNode α} (h : GeomOK c s n) :
    n.size = s := by
  cases n with
  | leaf => exact h.2
  | node => exact h.2.1

theorem GeomOK_getChild {c : Vec3 α} {s : α} {n : OctreeNode α} (h : GeomOK c s n)
    {i : ℕ} (hi : i < 8) {x : OctreeNode α} (hx : n.getChild i = some x) :
    GeomOK (childCenter c s i) (s / 2) x := by
  cases n with
  | leaf c' s' l' => simp at hx
  | node c' s' l' k0 k1 k2 k3 k4 k5 k6 k7 =>
    obtain ⟨-, -, h0, h1, h2, h3, h4, h5, h6, h7⟩ := h
    interval_cases i <;>
      (simp [OctreeNode.getChild, OctreeNode.childList] at hx; subst hx; assumption)

theorem GeomOK_setChild {c : Vec3 α} {s : α} {n : OctreeNode α} (h : GeomOK c s n)
    {i : ℕ} (hi : i < 8) {x : OctreeNode α}
    (hx : GeomOK (childCenter c s i) (s / 2) x) : GeomOK c s (n.setChild i x) := by
  cases n with
  | leaf c' s' l' =>
    rcases i with _ | _ | _ | _ | _ | _ | _ | _ | i <;> exact h
  | node c' s' l' k0 k1 k2 k3 k4 k5 k6 k7 =>
    obtain ⟨hc, hs, h0, h1, h2, h3, h4, h5, h6, h7⟩ := h
    interval_cases i
    · simp only [OctreeNode.setChild, GeomOK]
      exact ⟨hc, hs, hx, h1, h2, h3, h4, h5, h6, h7⟩
    · simp only [OctreeNode.setChild, GeomOK]
      exact ⟨hc, hs, h0, hx, h2, h3, h4, h5, h6, h7⟩
    · simp only [OctreeNode.setChild, GeomOK]
      exact ⟨hc, hs, h0, h1, hx, h3, h4, h5, h6, h7⟩
    · simp only [OctreeNode.setChild, GeomOK]
      exact ⟨hc, hs, h0, h1, h2, hx, h4, h5, h6, h7⟩
    · simp only [OctreeNode.setChild, GeomOK]
      exact ⟨hc, hs, h0, h1, h2, h3, hx, h5, h6, h7⟩
    · simp only [OctreeNode.setChild, GeomOK]
      exact ⟨hc, hs, h0, h1, h2, h3, h4, hx, h6, h7⟩
    · simp only [OctreeNode.setChild, GeomOK]
      exact ⟨hc, hs, h0, h1, h2, h3, h4, h5, hx, h7⟩
    · simp only [OctreeNode.setChild, GeomOK]
      exact ⟨hc, hs, h0, h1, h2, h3, h4, h5, h6, hx⟩

theorem GeomOK_subdivide {c : Vec3 α} {s : α} {n : OctreeNode α}
    (hn : n.is_leaf = true) (h : GeomOK c s n) : GeomOK c s n.subdivide := by
  cases n with
  | node => simp [OctreeNode.is_leaf] at hn
  | leaf c' s' l' =>
    obtain ⟨hc, hs⟩ := h
    subst hc
    subst hs
    simp [OctreeNode.subdivide, GeomOK, childCenter, childOffsets, vadd]

theorem GeomOK_prep {c : Vec3 α} {s : α} {n : OctreeNode α} (h : GeomOK c s n) :
    GeomOK c s (prep n) := by
  unfold prep
  cases hl : n.is_leaf with
  | true => simpa using GeomOK_subdivide hl h
  | false => simpa using h

theorem GeomOK_update {c : Vec3 α} {s : α} {n : OctreeNode α} (h : GeomOK c s n)
    (o : Bool) : GeomOK c s (update_log_odds P n o) := by
  cases n with
  | leaf => exact h
  | node => exact h

theorem GeomOK_insert_point {c : Vec3 α} {s : α} {n : OctreeNode α} (h : GeomOK c s n)
    (p : Vec3 α) (d : ℕ) : GeomOK c s (insert_point P n p d) := by
  induction d generalizing c s n with
  | zero => exact GeomOK_update h true
  | succ d ih =>
    rw [insert_point_succ]
    have hp := GeomOK_prep h
    have hi := childIndex_lt (prep n).center p
    obtain ⟨ch, hch⟩ := getChild_isSome_of_node (prep_is_leaf n) hi
    rw [getChildD_eq hch]
    exact GeomOK_setChild hp hi (ih (GeomOK_getChild hp hi hch))

theorem GeomOK_init (c : Vec3 α) (s : α) : GeomOK c s (OctreeNode.init c s) :=
  ⟨rfl, rfl⟩

theorem GeomOK_build (pts : List (Vec3 α)) (d : ℕ) (c : Vec3 α) (s : α) :
    GeomOK c s (build_octree P pts d c s) := by
  unfold build_octree
  have : ∀ t : OctreeNode α, GeomOK c s t →
      GeomOK c s (pts.foldl (fun r p => insert_point P r p d) t) := by
    induction pts with
    | nil => exact fun t h => h
    | cons p rest ih => exact fun t h => ih _ (GeomOK_insert_point h p d)
  exact this _ (GeomOK_init c s)

/-- On a geometrically consistent tree the descent path of `insert_point` is
the purely geometric one. -/
theorem insertTrace_eq_descentPath {c : Vec3 α} {s : α} {n : OctreeNode α}
    (h : GeomOK c s n) (p : Vec3 α) (d : ℕ) :
    insertTrace n p d = descentPath c s p d := by
  induction d generalizing c s n with
  | zero => rfl
  | succ d ih =>
    rw [insertTrace_succ]
    have hp := GeomOK_prep h
    have hcn : (prep n).center = c := GeomOK_center hp
    have hi : childIndex (prep n).center p < 8 := childIndex_lt _ _
    obtain ⟨ch, hch⟩ := getChild_isSome_of_node (prep_is_leaf n) hi
    rw [getChildD_eq hch]
    have hchG := GeomOK_getChild hp hi hch
    rw [hcn] at hchG ⊢
    calc childIndex c p :: insertTrace ch p d
        = childIndex c p :: descentPath (childCenter c s (childIndex c p)) (s / 2) p d := by
          rw [ih hchG]
      _ = descentPath c s p (d + 1) := rfl

theorem UD_of_leaf {n : OctreeNode α} (h : n.is_leaf = true) (d : ℕ) : UD d n := by
  cases n with
  | node => simp [OctreeNode.is_leaf] at h
  | leaf c s l =>
    cases d with
    | zero => exact h
    | succ d => trivial

theorem UD_leaf_node (c : Vec3 α) (s l : α) (d : ℕ) : UD d (OctreeNode.leaf c s l) := by
  apply UD_of_leaf
  rfl

theorem UD_getChild {d : ℕ} {n : OctreeNode α} (h : UD (d + 1) n) {i : ℕ} (hi : i < 8)
    {x : OctreeNode α} (hx : n.getChild i = some x) : UD d x := by
  cases n with
  | leaf c s l => simp at hx
  | node c s l k0 k1 k2 k3 k4 k5 k6 k7 =>
    obtain ⟨h0, h1, h2, h3, h4, h5, h6, h7⟩ := h
    interval_cases i <;>
      (simp [OctreeNode.getChild, OctreeNode.childList] at hx; subst hx; assumption)

theorem UD_setChild {d : ℕ} {n : OctreeNode α} (h : UD (d + 1) n) {i : ℕ} (hi : i < 8)
    {x : OctreeNode α} (hx : UD d x) : UD (d + 1) (n.setChild i x) := by
  cases n with
  | leaf c s l =>
    rcases i with _ | _ | _ | _ | _ | _ | _ | _ | i <;> exact h
  | node c s l k0 k1 k2 k3 k4 k5 k6 k7 =>
    obtain ⟨h0, h1, h2, h3, h4, h5, h6, h7⟩ := h
    interval_cases i
    · exact ⟨hx, h1, h2, h3, h4, h5, h6, h7⟩
    · exact ⟨h0, hx, h2, h3, h4, h5, h6, h7⟩
    · exact ⟨h0, h1, hx, h3, h4, h5, h6, h7⟩
    · exact ⟨h0, h1, h2, hx, h4, h5, h6, h7⟩
    · exact ⟨h0, h1, h2, h3, hx, h5, h6, h7⟩
    · exact ⟨h0, h1, h2, h3, h4, hx, h6, h7⟩
    · exact ⟨h0, h1, h2, h3, h4, h5, hx, h7⟩
    · exact ⟨h0, h1, h2, h3, h4, h5, h6, hx⟩

theorem UD_prep {d : ℕ} {n : OctreeNode α} (h : UD (d + 1) n) : UD (d + 1) (prep n) := by
  unfold prep
  cases hl : n.is_leaf with
  | false => simpa using h
  | true =>
    simp only [if_pos]
    cases n with
    | node => simp [OctreeNode.is_leaf] at hl
    | leaf c s l =>
      exact ⟨UD_leaf_node _ _ _ d, UD_leaf_node _ _ _ d, UD_leaf_node _ _ _ d,
        UD_leaf_node _ _ _ d, UD_leaf_node _ _ _ d, UD_leaf_node _ _ _ d,
        UD_leaf_node _ _ _ d, UD_leaf_node _ _ _ d⟩

theorem UD_update {d : ℕ} {n : OctreeNode α} (h : UD d n) (o : Bool) :
    UD d (update_log_odds P n o) := by
  cases d with
  | zero =>
    show (update_log_odds P n o).is_leaf = true
    rw [update_is_leaf]
    exact h
  | succ d =>
    cases n with
    | leaf => trivial
    | node => exact h

/-- Inserting with depth limit `d` into a tree all of whose depth-`d` nodes
are leaves preserves that property. -/
theorem UD_insert_point {d : ℕ} {n : OctreeNode α} (h : UD d n) (p : Vec3 α) :
    UD d (insert_point P n p d) := by
  induction d generalizing n with
  | zero => exact UD_update h true
  | succ d ih =>
    rw [insert_point_succ]
    have hp := UD_prep h
    have hi := childIndex_lt (prep n).center p
    obtain ⟨ch, hch⟩ := getChild_isSome_of_node (prep_is_leaf n) hi
    rw [getChildD_eq hch]
    exact UD_setChild hp hi (ih (UD_getChild hp hi hch))

theorem UD_build (pts : List (Vec3 α)) (d : ℕ) (c : Vec3 α) (s : α) :
    UD d (build_octree P pts d c s) := by
  unfold build_octree
  have : ∀ t : OctreeNode α, UD d t →
      UD d (pts.foldl (fun r p => insert_point P r p d) t) := by
    induction pts with
    | nil => exact fun t h => h
    | cons p rest ih => exact fun t h => ih _ (UD_insert_point h p)
  exact this _ (UD_leaf_node c s 0 d)

/-- On a tree all of whose depth-`d` nodes are leaves, the node that
`insert_point` updates is a leaf at the moment of the update. -/
theorem targetNode_is_leaf {d : ℕ} {n : OctreeNode α} (h : UD d n) (p : Vec3 α) :
    (targetNode n p d).is_leaf = true := by
  induction d generalizing n with
  | zero => exact h
  | succ d ih =>
    rw [targetNode_succ]
    have hp := UD_prep h
    have hi := childIndex_lt (prep n).center p
    obtain ⟨ch, hch⟩ := getChild_isSome_of_node (prep_is_leaf n) hi
    rw [getChildD_eq hch]
    exact ih (UD_getChild hp hi hch)

end Invariants

/-! ## Counting distinct reached paths -/

section Paths

variable {α : Type} [LinearOrderedField α] {P : OctParams α}

theorem length_allPaths (n : OctreeNode α) :
    (allPaths n).length = count_octree_nodes n := by
  induction n with
  | leaf c s l => rfl
  | node c s l k0 k1 k2 k3 k4 k5 k6 k7 ih0 ih1 ih2 ih3 ih4 ih5 ih6 ih7 =>
    simp [allPaths, count_octree_nodes, ih0, ih1, ih2, ih3, ih4, ih5, ih6, ih7]
    omega

theorem getChild_lt_of_some {n : OctreeNode α} {i : ℕ} {c : OctreeNode α}
    (h : n.getChild i = some c) : i < 8 := by
  cases n with
  | leaf => simp at h
  | node =>
    have := List.getElem?_eq_some_iff.mp h
    simpa [OctreeNode.childList] using this.1

theorem mem_allPaths_of_isSome {q : List ℕ} {n : OctreeNode α}
    (h : (nodeAt n q).isSome) : q ∈ allPaths n := by
  induction q generalizing n with
  | nil => cases n <;> simp [allPaths]
  | cons j q' ih =>
    obtain ⟨x, hx⟩ := Option.isSome_iff_exists.mp h
    obtain ⟨c, hc, hrest⟩ := getChild_isSome_of_cons hx
    have hj : j < 8 := getChild_lt_of_some hc
    have hmem : q' ∈ allPaths c := ih (by simp [hrest])
    cases n with
    | leaf => simp at hc
    | node cc ss ll k0 k1 k2 k3 k4 k5 k6 k7 =>
      interval_cases j <;>
        (simp [OctreeNode.getChild, OctreeNode.childList] at hc
         subst hc
         simp [allPaths]
         tauto)

theorem disjoint_consMap {i j : ℕ} (h : i ≠ j) (A B : List (List ℕ)) :
    (A.map (i :: ·)).Disjoint (B.map (j :: ·)) := by
  intro a ha hb
  obtain ⟨x, hx, rfl⟩ := List.mem_map.mp ha
  obtain ⟨y, hy, hyx⟩ := List.mem_map.mp hb
  injection hyx with h1 h2
  exact h h1.symm

theorem nodup_allPaths (n : OctreeNode α) : (allPaths n).Nodup := by
  induction n with
  | leaf c s l => simp [allPaths]
  | node c s l k0 k1 k2 k3 k4 k5 k6 k7 ih0 ih1 ih2 ih3 ih4 ih5 ih6 ih7 =>
    have n0 : ((allPaths k0).map ((0 : ℕ) :: ·)).Nodup := ih0.map List.cons_injective
    have n1 : ((allPaths k1).map ((1 : ℕ) :: ·)).Nodup := ih1.map List.cons_injective
    have n2 : ((allPaths k2).map ((2 : ℕ) :: ·)).Nodup := ih2.map List.cons_injective
    have n3 : ((allPaths k3).map ((3 : ℕ) :: ·)).Nodup := ih3.map List.cons_injective
    have n4 : ((allPaths k4).map ((4 : ℕ) :: ·)).Nodup := ih4.map List.cons_injective
    have n5 : ((allPaths k5).map ((5 : ℕ) :: ·)).Nodup := ih5.map List.cons_injective
    have n6 : ((allPaths k6).map ((6 : ℕ) :: ·)).Nodup := ih6.map List.cons_injective
    have n7 : ((allPaths k7).map ((7 : ℕ) :: ·)).Nodup := ih7.map List.cons_injective
    rw [allPaths, List.nodup_cons]
    constructor
    · simp
    · simp only [List.nodup_append, List.disjoint_append_left]
      repeat' apply And.intro
      all_goals first
        | assumption
        | (apply disjoint_consMap; decide)

/-- Any set of simultaneously valid index paths is at most as large as the
node count. -/
theorem card_valid_paths_le (t : OctreeNode α) (F : Finset (List ℕ))
    (h : ∀ q ∈ F, (nodeAt t q).isSome) : F.card ≤ count_octree_nodes t := by
  have hsub : F ⊆ (allPaths t).toFinset := by
    intro q hq
    rw [List.mem_toFinset]
    exact mem_allPaths_of_isSome (h q hq)
  calc F.card ≤ (allPaths t).toFinset.card := Finset.card_le_card hsub
    _ = (allPaths t).length := List.toFinset_card_of_nodup (nodup_allPaths t)
    _ = count_octree_nodes t := length_allPaths t

theorem nodeAt_isSome_foldl (pts : List (Vec3 α)) (d : ℕ) (t : OctreeNode α)
    {q : List ℕ} (h : (nodeAt t q).isSome) :
    (nodeAt (pts.foldl (fun r p => insert_point P r p d) t) q).isSome := by
  induction pts generalizing t with
  | nil => exact h
  | cons p rest ih => exact ih _ (nodeAt_isSome_insert_point d t p h)

/-- After building, the geometric descent path of every inserted point leads
to a node of the final tree. -/
theorem descentPath_isSome_build {pts : List (Vec3 α)} {p : Vec3 α} (hp : p ∈ pts)
    (d : ℕ) (c : Vec3 α) (s : α) :
    (nodeAt (build_octree P pts d c s) (descentPath c s p d)).isSome := by
  unfold build_octree
  have main : ∀ (l : List (Vec3 α)) (t : OctreeNode α), GeomOK c s t → p ∈ l →
      (nodeAt (l.foldl (fun r p => insert_point P r p d) t) (descentPath c s p d)).isSome := by
    intro l
    induction l with
    | nil => intro t _ hmem; simp at hmem
    | cons a rest ih =>
      intro t hG hmem
      rcases List.mem_cons.mp hmem with hpa | hprest
      · subst hpa
        simp only [List.foldl_cons]
        apply nodeAt_isSome_foldl
        rw [← insertTrace_eq_descentPath hG p d, nodeAt_insert_point_trace]
        rfl
      · exact ih _ (GeomOK_insert_point hG a d) hprest
  exact main pts _ (GeomOK_init c s) hp

end Paths

/-! ## Insertion order commutativity -/

section Comm

variable {α : Type} [LinearOrderedField α] {P : OctParams α}

theorem insert_point_succ' {m : OctreeNode α} (hm : m.is_leaf = false) (p : Vec3 α)
    (d : ℕ) :
    insert_point P m p (d + 1) =
      m.setChild (childIndex m.center p)
        (insert_point P (m.getChildD (childIndex m.center p)) p d) := by
  rw [insert_point_succ, prep_of_not_leaf hm]

theorem setChild_setChild_same (n : OctreeNode α) (i : ℕ) (x y : OctreeNode α) :
    (n.setChild i x).setChild i y = n.setChild i y := by
  cases n <;> rcases i with _ | _ | _ | _ | _ | _ | _ | _ | i <;> rfl

theorem setChild_comm (n : OctreeNode α) {i j : ℕ} (h : i ≠ j) (x y : OctreeNode α) :
    (n.setChild i x).setChild j y = (n.setChild j y).setChild i x := by
  cases n <;> rcases i with _ | _ | _ | _ | _ | _ | _ | _ | i <;>
    rcases j with _ | _ | _ | _ | _ | _ | _ | _ | j <;>
    first | rfl | exact absurd rfl h

/-- Two insertions with the same depth limit commute: the final tree does not
depend on which of the two points is inserted first. -/
theorem insert_point_comm (d : ℕ) (n : OctreeNode α) (p p' : Vec3 α) :
    insert_point P (insert_point P n p d) p' d =
      insert_point P (insert_point P n p' d) p d := by
  induction d generalizing n with
  | zero => rfl
  | succ d ih =>
    have hm : (prep n).is_leaf = false := prep_is_leaf n
    have hi : childIndex (prep n).center p < 8 := childIndex_lt _ _
    have hi' : childIndex (prep n).center p' < 8 := childIndex_lt _ _
    obtain ⟨ch, hch⟩ := getChild_isSome_of_node hm hi
    obtain ⟨ch', hch'⟩ := getChild_isSome_of_node hm hi'
    rw [insert_point_succ n p, insert_point_succ n p']
    rw [insert_point_succ' (setChild_is_leaf hm _ _) p' d,
      insert_point_succ' (setChild_is_leaf hm _ _) p d]
    simp only [setChild_center]
    by_cases hii : childIndex (prep n).center p = childIndex (prep n).center p'
    · rw [← hii]
      rw [getChildD_eq (getChild_setChild_self hm hi _)]
      rw [getChildD_eq (getChild_setChild_self hm hi _)]
      rw [setChild_setChild_same, setChild_setChild_same, ih]
    · have hA : (((prep n).setChild (childIndex (prep n).center p)
          (insert_point P ((prep n).getChildD (childIndex (prep n).center p)) p d)).getChild
          (childIndex (prep n).center p')) = some ch' := by
        rw [getChild_setChild_ne _ hii]
        exact hch'
      have hB : (((prep n).setChild (childIndex (prep n).center p')
          (insert_point P ((prep n).getChildD (childIndex (prep n).center p')) p' d)).getChild
          (childIndex (prep n).center p)) = some ch := by
        rw [getChild_setChild_ne _ (Ne.symm hii)]
        exact hch
      rw [getChildD_eq hA, getChildD_eq hB]
      rw [getChildD_eq hch, getChildD_eq hch']
      rw [setChild_comm _ hii]

theorem build_octree_perm {pts1 pts2 : List (Vec3 α)} (h : pts1.Perm pts2)
    (d : ℕ) (c : Vec3 α) (s : α) :
    build_octree P pts1 d c s = build_octree P pts2 d c s := by
  unfold build_octree
  have main : ∀ t : OctreeNode α,
      pts1.foldl (fun r p => insert_point P r p d) t =
        pts2.foldl (fun r p => insert_point P r p d) t := by
    induction h with
    | nil => exact fun t => rfl
    | cons x l12 ih =>
      intro t
      simp only [List.foldl_cons]
      exact ih _
    | swap x y l =>
      intro t
      simp only [List.foldl_cons]
      rw [insert_point_comm]
    | trans h1 h2 ih1 ih2 =>
      intro t
      rw [ih1, ih2]
  exact main _

end Comm

/-! ## Dense voxel grid lemmas -/

section Grid

variable {α : Type} [LinearOrderedField α] [FloorRing α]

theorem voxelGet_bump_self (m : List ((ℤ × ℤ × ℤ) × ℕ)) (i : ℤ × ℤ × ℤ) :
    voxelGet (bumpVoxel m i) i = voxelGet m i + 1 := by
  induction m with
  | nil => simp [bumpVoxel, voxelGet]
  | cons jc rest ih =>
    obtain ⟨j, c⟩ := jc
    by_cases h : j = i <;> simp [bumpVoxel, voxelGet, h, ih]

theorem voxelGet_bump_ne {i i' : ℤ × ℤ × ℤ} (h : i' ≠ i)
    (m : List ((ℤ × ℤ × ℤ) × ℕ)) : voxelGet (bumpVoxel m i) i' = voxelGet m i' := by
  have h' : i ≠ i' := Ne.symm h
  induction m with
  | nil => simp [bumpVoxel, voxelGet, h']
  | cons jc rest ih =>
    obtain ⟨j, c⟩ := jc
    by_cases hj : j = i
    · subst hj
      simp [bumpVoxel, voxelGet, h']
    · simp [bumpVoxel, voxelGet, hj, ih]

theorem sum_bump (m : List ((ℤ × ℤ × ℤ) × ℕ)) (i : ℤ × ℤ × ℤ) :
    ((bumpVoxel m i).map Prod.snd).sum = (m.map Prod.snd).sum + 1 := by
  induction m with
  | nil => simp [bumpVoxel]
  | cons jc rest ih =>
    obtain ⟨j, c⟩ := jc
    by_cases h : j = i <;> simp [bumpVoxel, h, ih] <;> omega

theorem keysFinset_bump (m : List ((ℤ × ℤ × ℤ) × ℕ)) (i : ℤ × ℤ × ℤ) :
    ((bumpVoxel m i).map Prod.fst).toFinset = insert i (m.map Prod.fst).toFinset := by
  induction m with
  | nil => simp [bumpVoxel]
  | cons jc rest ih =>
    obtain ⟨j, c⟩ := jc
    by_cases h : j = i
    · subst h
      simp [bumpVoxel]
    · simp [bumpVoxel, h, ih, Finset.Insert.comm]

theorem mem_keys_bump {x i : ℤ × ℤ × ℤ} {m : List ((ℤ × ℤ × ℤ) × ℕ)} :
    x ∈ (bumpVoxel m i).map Prod.fst ↔ x ∈ m.map Prod.fst ∨ x = i := by
  induction m with
  | nil => simp [bumpVoxel]
  | cons jc rest ih =>
    obtain ⟨j, c⟩ := jc
    by_cases h : j = i
    · subst h
      simp [bumpVoxel]
      tauto
    · simp [bumpVoxel, h, ih]
      tauto

theorem keysNodup_bump {m : List ((ℤ × ℤ × ℤ) × ℕ)} (h : (m.map Prod.fst).Nodup)
    (i : ℤ × ℤ × ℤ) : ((bumpVoxel m i).map Prod.fst).Nodup := by
  induction m with
  | nil => simp [bumpVoxel]
  | cons jc rest ih =>
    obtain ⟨j, c⟩ := jc
    simp only [List.map_cons, List.nodup_cons] at h
    by_cases hj : j = i
    · subst hj
      simpa [bumpVoxel] using h
    · simp only [bumpVoxel, if_neg hj, List.map_cons, List.nodup_cons]
      refine ⟨?_, ih h.2⟩
      rw [mem_keys_bump]
      rintro (hmem | rfl)
      · exact h.1 hmem
      · exact hj rfl

theorem length_bump_eq_keys (m : List ((ℤ × ℤ × ℤ) × ℕ)) :
    m.length = (m.map Prod.fst).length := by
  simp

theorem voxelGet_fold (pts : List (Vec3 α)) (gmin : Vec3 α) (vs : α)
    (m : List ((ℤ × ℤ × ℤ) × ℕ)) (i : ℤ × ℤ × ℤ) :
    voxelGet (pts.foldl (fun m p => bumpVoxel m (point_to_voxel_index gmin vs p)) m) i =
      voxelGet m i + (pts.map (point_to_voxel_index gmin vs)).count i := by
  induction pts generalizing m with
  | nil => simp
  | cons p rest ih =>
    simp only [List.foldl_cons, List.map_cons]
    rw [ih]
    by_cases h : point_to_voxel_index gmin vs p = i
    · rw [h, voxelGet_bump_self]
      rw [List.count_cons]
      simp [h]
      omega
    · rw [voxelGet_bump_ne (fun he => h he.symm)]
      rw [List.count_cons]
      simp [h]

theorem sum_fold (pts : List (Vec3 α)) (gmin : Vec3 α) (vs : α)
    (m : List ((ℤ × ℤ × ℤ) × ℕ)) :
    (((pts.foldl (fun m p => bumpVoxel m (point_to_voxel_index gmin vs p)) m)).map
        Prod.snd).sum = (m.map Prod.snd).sum + pts.length := by
  induction pts generalizing m with
  | nil => simp
  | cons p rest ih =>
    simp only [List.foldl_cons, List.length_cons]
    rw [ih, sum_bump]
    omega

theorem keysFinset_fold (pts : List (Vec3 α)) (gmin : Vec3 α) (vs : α)
    (m : List ((ℤ × ℤ × ℤ) × ℕ)) :
    (((pts.foldl (fun m p => bumpVoxel m (point_to_voxel_index gmin vs p)) m)).map
        Prod.fst).toFinset =
      (m.map Prod.fst).toFinset ∪ (pts.map (point_to_voxel_index gmin vs)).toFinset := by
  induction pts generalizing m with
  | nil => simp
  | cons p rest ih =>
    simp only [List.foldl_cons, List.map_cons, List.toFinset_cons]
    rw [ih, keysFinset_bump]
    rw [Finset.insert_union, Finset.union_insert]

theorem keysNodup_fold (pts : List (Vec3 α)) (gmin : Vec3 α) (vs : α)
    (m : List ((ℤ × ℤ × ℤ) × ℕ)) (h : (m.map Prod.fst).Nodup) :
    (((pts.foldl (fun m p => bumpVoxel m (point_to_voxel_index gmin vs p)) m)).map
        Prod.fst).Nodup := by
  induction pts generalizing m with
  | nil => exact h
  | cons p rest ih =>
    exact ih _ (keysNodup_bump h _)

theorem get_total_points_dense (pts : List (Vec3 α)) (vs : α) (c : Vec3 α) (s : α) :
    get_total_points (denseVoxelGrid pts vs c s) = pts.length := by
  unfold get_total_points denseVoxelGrid
  rw [sum_fold]
  simp

theorem gridCount_dense (pts : List (Vec3 α)) (vs : α) (c : Vec3 α) (s : α)
    (i : ℤ × ℤ × ℤ) :
    gridCount (denseVoxelGrid pts vs c s) i =
      (pts.map (point_to_voxel_index (grid_min_of c s) vs)).count i := by
  unfold gridCount denseVoxelGrid
  rw [voxelGet_fold]
  simp [voxelGet]

theorem get_voxel_count_dense (pts : List (Vec3 α)) (vs : α) (c : Vec3 α) (s : α) :
    get_voxel_count (denseVoxelGrid pts vs c s) =
      (pts.map (point_to_voxel_index (grid_min_of c s) vs)).toFinset.card := by
  unfold get_voxel_count denseVoxelGrid
  have hnodup := keysNodup_fold pts (grid_min_of c s) vs [] (by simp)
  rw [length_bump_eq_keys, ← List.toFinset_card_of_nodup hnodup, keysFinset_fold]
  simp

end Grid

/-! ## Clamping bounds on stored log-odds -/

section Bounded

variable {α : Type} [LinearOrderedField α] {P : OctParams α}

theorem clamp_mem {lo hi : α} (h : lo ≤ hi) (v : α) :
    lo ≤ min (max v lo) hi ∧ min (max v lo) hi ≤ hi :=
  ⟨le_min (le_max_right v lo) h, min_le_right _ _⟩

theorem update_log_odds_mem (h : P.CLAMP_MIN ≤ P.CLAMP_MAX) (n : OctreeNode α)
    (o : Bool) :
    P.CLAMP_MIN ≤ (update_log_odds P n o).log_odds ∧
      (update_log_odds P n o).log_odds ≤ P.CLAMP_MAX := by
  rw [update_log_odds_val]
  exact clamp_mem h _

theorem update_foldl_mem (h : P.CLAMP_MIN ≤ P.CLAMP_MAX) (n : OctreeNode α)
    {l : List Bool} (hl : l ≠ []) :
    P.CLAMP_MIN ≤ (l.foldl (fun t b => update_log_odds P t b) n).log_odds ∧
      (l.foldl (fun t b => update_log_odds P t b) n).log_odds ≤ P.CLAMP_MAX := by
  induction l generalizing n with
  | nil => exact absurd rfl hl
  | cons b rest ih =>
    cases rest with
    | nil => exact update_log_odds_mem h n b
    | cons b' rest' => exact ih _ (by simp)

theorem oddsBounded_log_odds {lo hi : α} {n : OctreeNode α} (h : oddsBounded lo hi n) :
    lo ≤ n.log_odds ∧ n.log_odds ≤ hi := by
  cases n with
  | leaf => exact h
  | node => exact h.1

theorem oddsBounded_update {n : OctreeNode α} (hlh : P.CLAMP_MIN ≤ P.CLAMP_MAX)
    (h : oddsBounded P.CLAMP_MIN P.CLAMP_MAX n) (o : Bool) :
    oddsBounded P.CLAMP_MIN P.CLAMP_MAX (update_log_odds P n o) := by
  cases n with
  | leaf c s l =>
    simp only [update_log_odds, OctreeNode.setLogOdds, oddsBounded]
    exact clamp_mem hlh _
  | node c s l k0 k1 k2 k3 k4 k5 k6 k7 =>
    simp only [update_log_odds, OctreeNode.setLogOdds, oddsBounded]
    exact ⟨clamp_mem hlh _, h.2⟩

theorem oddsBounded_getChild {lo hi : α} {n : OctreeNode α} (h : oddsBounded lo hi n)
    {i : ℕ} {x : OctreeNode α} (hx : n.getChild i = some x) : oddsBounded lo hi x := by
  cases n with
  | leaf => simp at hx
  | node c s l k0 k1 k2 k3 k4 k5 k6 k7 =>
    have hi : i < 8 := getChild_lt_of_some hx
    obtain ⟨hr, h0, h1, h2, h3, h4, h5, h6, h7⟩ := h
    interval_cases i <;>
      (simp [OctreeNode.getChild, OctreeNode.childList] at hx; subst hx; assumption)

theorem oddsBounded_setChild {lo hi : α} {n : OctreeNode α} (h : oddsBounded lo hi n)
    {i : ℕ} (hi8 : i < 8) {x : OctreeNode α} (hx : oddsBounded lo hi x) :
    oddsBounded lo hi (n.setChild i x) := by
  cases n with
  | leaf c s l =>
    rcases i with _ | _ | _ | _ | _ | _ | _ | _ | i <;> exact h
  | node c s l k0 k1 k2 k3 k4 k5 k6 k7 =>
    obtain ⟨hr, h0, h1, h2, h3, h4, h5, h6, h7⟩ := h
    interval_cases i
    · exact ⟨hr, hx, h1, h2, h3, h4, h5, h6, h7⟩
    · exact ⟨hr, h0, hx, h2, h3, h4, h5, h6, h7⟩
    · exact ⟨hr, h0, h1, hx, h3, h4, h5, h6, h7⟩
    · exact ⟨hr, h0, h1, h2, hx, h4, h5, h6, h7⟩
    · exact ⟨hr, h0, h1, h2, h3, hx, h5, h6, h7⟩
    · exact ⟨hr, h0, h1, h2, h3, h4, hx, h6, h7⟩
    · exact ⟨hr, h0, h1, h2, h3, h4, h5, hx, h7⟩
    · exact ⟨hr, h0, h1, h2, h3, h4, h5, h6, hx⟩

theorem oddsBounded_prep {lo hi : α} (h0 : lo ≤ 0) (h1 : (0 : α) ≤ hi)
    {n : OctreeNode α} (h : oddsBounded lo hi n) : oddsBounded lo hi (prep n) := by
  unfold prep
  cases n with
  | node => simpa using h
  | leaf c s l =>
    simp only [OctreeNode.is_leaf, if_pos, OctreeNode.subdivide, oddsBounded]
    exact ⟨h, ⟨h0, h1⟩, ⟨h0, h1⟩, ⟨h0, h1⟩, ⟨h0, h1⟩, ⟨h0, h1⟩, ⟨h0, h1⟩, ⟨h0, h1⟩,
      ⟨h0, h1⟩⟩

theorem oddsBounded_insert_point (h0 : P.CLAMP_MIN ≤ (0 : α))
    (h1 : (0 : α) ≤ P.CLAMP_MAX) {n : OctreeNode α}
    (h : oddsBounded P.CLAMP_MIN P.CLAMP_MAX n) (p : Vec3 α) (d : ℕ) :
    oddsBounded P.CLAMP_MIN P.CLAMP_MAX (insert_point P n p d) := by
  induction d generalizing n with
  | zero => exact oddsBounded_update (le_trans h0 h1) h true
  | succ d ih =>
    rw [insert_point_succ]
    have hp := oddsBounded_prep h0 h1 h
    have hi := childIndex_lt (prep n).center p
    obtain ⟨ch, hch⟩ := getChild_isSome_of_node (prep_is_leaf n) hi
    rw [getChildD_eq hch]
    exact oddsBounded_setChild hp hi (ih (oddsBounded_getChild hp hch))

theorem oddsBounded_build (h0 : P.CLAMP_MIN ≤ (0 : α)) (h1 : (0 : α) ≤ P.CLAMP_MAX)
    (pts : List (Vec3 α)) (d : ℕ) (c : Vec3 α) (s : α) :
    oddsBounded P.CLAMP_MIN P.CLAMP_MAX (build_octree P pts d c s) := by
  unfold build_octree
  have main : ∀ t : OctreeNode α, oddsBounded P.CLAMP_MIN P.CLAMP_MAX t →
      oddsBounded P.CLAMP_MIN P.CLAMP_MAX
        (pts.foldl (fun r p => insert_point P r p d) t) := by
    induction pts with
    | nil => exact fun t h => h
    | cons p rest ih => exact fun t h => ih _ (oddsBounded_insert_point h0 h1 h p d)
  exact main _ ⟨h0, h1⟩

theorem oddsBounded_nodeAt {lo hi : α} {t : OctreeNode α} (h : oddsBounded lo hi t)
    {q : List ℕ} {n : OctreeNode α} (hn : nodeAt t q = some n) :
    lo ≤ n.log_odds ∧ n.log_odds ≤ hi := by
  induction q generalizing t with
  | nil =>
    rw [nodeAt_nil] at hn
    obtain rfl := Option.some_injective _ hn
    exact oddsBounded_log_odds h
  | cons j q' ih =>
    obtain ⟨c, hc, hrest⟩ := getChild_isSome_of_cons hn
    exact ih (oddsBounded_getChild h hc) hrest

end Bounded

/-! ## Facts about the real log-odds constants -/

theorem octreeConstants_L_OCC : octreeConstants.L_OCC = Real.log (0.7 / 0.3) := by
  unfold octreeConstants
  norm_num

theorem octreeConstants_L_FREE : octreeConstants.L_FREE = Real.log (0.4 / 0.6) := by
  unfold octreeConstants
  norm_num

theorem L_OCC_pos : 0 < octreeConstants.L_OCC := by
  unfold octreeConstants
  exact Real.log_pos (by norm_num)

theorem L_OCC_le : octreeConstants.L_OCC ≤ 3.5 := by
  unfold octreeConstants
  simp only
  calc Real.log (0.7 / (1 - 0.7)) ≤ 0.7 / (1 - 0.7) - 1 :=
        Real.log_le_sub_one_of_pos (by norm_num)
    _ ≤ 3.5 := by norm_num

/-! ## The claims -/

/-- C1: the claim asserts that the child selected by `insert_point` lies in
the per-axis half matching each strict comparison (x comparison selects the
±X half, and so on).  The code refutes this: `insert_point` packs the x
comparison into bit 0 of the index while `subdivide` orders its children
with x as the most significant bit, so the x and z axes are exchanged.
Evaluating the code at root center (0,0,0), size 10, point (1,−1,−1):
the point is strictly greater on X only, yet the node that receives the
log-odds update is centered at (−2.5,−2.5,+2.5) — the −X,+Z child, not the
+X,−Y,−Z child (2.5,−2.5,−2.5) the claim requires. -/
theorem claim_C1_code_eval :
    ((⟨1, -1, -1⟩ : Vec3 ℚ).x > (⟨0, 0, 0⟩ : Vec3 ℚ).x) ∧
    childIndex (⟨0, 0, 0⟩ : Vec3 ℚ) ⟨1, -1, -1⟩ = 1 ∧
    (targetNode (OctreeNode.init (⟨0, 0, 0⟩ : Vec3 ℚ) 10) ⟨1, -1, -1⟩ 1).center =
      ⟨0 - 10 / 4, 0 - 10 / 4, 0 + 10 / 4⟩ ∧
    ¬ (targetNode (OctreeNode.init (⟨0, 0, 0⟩ : Vec3 ℚ) 10) ⟨1, -1, -1⟩ 1).center.x =
      0 + 10 / 4 := by
  refine ⟨by norm_num, ?_, ?_, ?_⟩ <;>
    norm_num [targetNode, childIndex, OctreeNode.init, OctreeNode.is_leaf,
      OctreeNode.subdivide, OctreeNode.center, OctreeNode.size, OctreeNode.getChildD,
      OctreeNode.getChild, OctreeNode.childList, prep, vadd]

/-- C2, counterexample: inserting the single point (1,1,1) with depth limit 1
into a fresh root already produces 9 nodes, exceeding the claimed bound
`1 + n·d·7 = 8`: each subdivision allocates 8 new nodes, not 7. -/
theorem claim_C2_counterexample :
    count_octree_nodes (build_octree ratParams [(⟨1, 1, 1⟩ : Vec3 ℚ)] 1 ⟨0, 0, 0⟩ 10) = 9 ∧
    ¬ count_octree_nodes (build_octree ratParams [(⟨1, 1, 1⟩ : Vec3 ℚ)] 1 ⟨0, 0, 0⟩ 10) ≤
        1 + 1 * 1 * 7 := by
  have h : count_octree_nodes
      (build_octree ratParams [(⟨1, 1, 1⟩ : Vec3 ℚ)] 1 ⟨0, 0, 0⟩ 10) = 9 := by
    norm_num [build_octree, insert_point, update_log_odds, childIndex, count_octree_nodes,
      OctreeNode.init, OctreeNode.is_leaf, OctreeNode.subdivide, OctreeNode.center,
      OctreeNode.size, OctreeNode.log_odds, OctreeNode.getChildD, OctreeNode.getChild,
      OctreeNode.childList, OctreeNode.setChild, OctreeNode.setLogOdds, vadd, ratParams]
  exact ⟨h, by rw [h]; norm_num⟩

/-- C2, amended: after inserting `n` distinct points with depth limit `d`
into a fresh root, `count_octree_nodes` is at most `1 + n·d·8` (each
insertion performs at most `d` subdivisions, each allocating 8 new nodes),
and is at least the number of distinct root-to-leaf descent paths reached by
the insertions. -/
theorem claim_C2_amended {α : Type} [LinearOrderedField α] (P : OctParams α)
    (pts : List (Vec3 α)) (d : ℕ) (c : Vec3 α) (s : α) (hnd : pts.Nodup) :
    count_octree_nodes (build_octree P pts d c s) ≤ 1 + pts.length * d * 8 ∧
    ((pts.map fun p => descentPath c s p d).toFinset).card ≤
      count_octree_nodes (build_octree P pts d c s) := by
  constructor
  · exact countNodes_build_le pts d c s
  · apply card_valid_paths_le
    intro q hq
    rw [List.mem_toFinset, List.mem_map] at hq
    obtain ⟨p, hp, rfl⟩ := hq
    exact descentPath_isSome_build hp d c s

/-- C2, witness: the amended bound applied to two distinct concrete points. -/
theorem claim_C2_witness :
    ([(⟨1, 1, 1⟩ : Vec3 ℚ), ⟨-1, -1, -1⟩]).Nodup ∧
    (count_octree_nodes
        (build_octree ratParams [(⟨1, 1, 1⟩ : Vec3 ℚ), ⟨-1, -1, -1⟩] 1 ⟨0, 0, 0⟩ 10) ≤
      1 + 2 * 1 * 8 ∧
    ((([(⟨1, 1, 1⟩ : Vec3 ℚ), ⟨-1, -1, -1⟩]).map
        fun p => descentPath (⟨0, 0, 0⟩ : Vec3 ℚ) 10 p 1).toFinset).card ≤
      count_octree_nodes
        (build_octree ratParams [(⟨1, 1, 1⟩ : Vec3 ℚ), ⟨-1, -1, -1⟩] 1 ⟨0, 0, 0⟩ 10)) := by
  have hnd : ([(⟨1, 1, 1⟩ : Vec3 ℚ), ⟨-1, -1, -1⟩]).Nodup := by
    norm_num [Vec3.mk.injEq]
  exact ⟨hnd, claim_C2_amended ratParams _ 1 ⟨0, 0, 0⟩ 10 hnd⟩

/-- C3, counterexample: no operation validates its configuration.
Constructing an octree root with size −1 silently yields an ordinary leaf of
size −1, calling insert with a negative depth limit silently updates the
root itself (`range` of a negative limit is empty), and building a dense
grid with voxel size −1 silently produces a populated voxel map — no error
is raised anywhere. -/
theorem claim_C3_counterexample :
    (OctreeNode.init (⟨0, 0, 0⟩ : Vec3 ℚ) (-1)).size = -1 ∧
    (OctreeNode.init (⟨0, 0, 0⟩ : Vec3 ℚ) (-1)).is_leaf = true ∧
    insert_point_int ratParams (OctreeNode.init (⟨0, 0, 0⟩ : Vec3 ℚ) 10) ⟨1, 1, 1⟩ (-3) =
      update_log_odds ratParams (OctreeNode.init ⟨0, 0, 0⟩ 10) true ∧
    (denseVoxelGrid [(⟨1, 1, 1⟩ : Vec3 ℚ)] (-1) ⟨0, 0, 0⟩ 10).voxels =
      [((-6, -6, -6), 1)] := by
  refine ⟨rfl, rfl, rfl, ?_⟩
  norm_num [denseVoxelGrid, grid_min_of, point_to_voxel_index, bumpVoxel]

/-- C3, amended: the code performs no validation at all: a non-positive
octree size is accepted and stored unchanged in an ordinary single-leaf
root, a non-positive depth limit performs zero descent steps and applies
the occupied update to the root itself (depth 0 therefore remains valid and
behaves identically), and a dense grid built with a non-positive voxel size
still stores every point. -/
theorem claim_C3_amended {α : Type} [LinearOrderedField α] [FloorRing α]
    (P : OctParams α) :
    (∀ (c : Vec3 α) (s : α), s ≤ 0 →
      (OctreeNode.init c s).size = s ∧ (OctreeNode.init c s).is_leaf = true) ∧
    (∀ (n : OctreeNode α) (p : Vec3 α) (z : ℤ), z ≤ 0 →
      insert_point_int P n p z = update_log_odds P n true) ∧
    (∀ (pts : List (Vec3 α)) (vs : α) (c : Vec3 α) (s : α), vs ≤ 0 →
      get_total_points (denseVoxelGrid pts vs c s) = pts.length) ∧
    (∀ (n : OctreeNode α) (p : Vec3 α),
      insert_point_int P n p 0 = update_log_odds P n true) := by
  refine ⟨fun c s _ => ⟨rfl, rfl⟩, fun n p z hz => ?_, fun pts vs c s _ =>
    get_total_points_dense pts vs c s, fun n p => insert_point_zero n p⟩
  unfold insert_point_int
  rw [Int.toNat_of_nonpos hz]
  exact insert_point_zero n p

/-- C3, witness: the amended statement applied at concrete degenerate
inputs. -/
theorem claim_C3_witness :
    ((-1 : ℚ) ≤ 0 ∧ (-3 : ℤ) ≤ 0) ∧
    ((OctreeNode.init (⟨0, 0, 0⟩ : Vec3 ℚ) (-1)).size = -1 ∧
      (OctreeNode.init (⟨0, 0, 0⟩ : Vec3 ℚ) (-1)).is_leaf = true) ∧
    insert_point_int ratParams (OctreeNode.init (⟨0, 0, 0⟩ : Vec3 ℚ) 10) ⟨1, 1, 1⟩ (-3) =
      update_log_odds ratParams (OctreeNode.init ⟨0, 0, 0⟩ 10) true ∧
    get_total_points (denseVoxelGrid [(⟨1, 1, 1⟩ : Vec3 ℚ)] (-1) ⟨0, 0, 0⟩ 10) = 1 := by
  refine ⟨⟨by norm_num, by norm_num⟩, ?_, ?_, ?_⟩
  · exact (claim_C3_amended ratParams).1 ⟨0, 0, 0⟩ (-1) (by norm_num)
  · exact (claim_C3_amended ratParams).2.1 _ _ (-3) (by norm_num)
  · exact (claim_C3_amended ratParams).2.2.1 _ (-1) _ _ (by norm_num)

/-- C8: for every dense voxel grid, the number of occupied voxels is at most
the total number of stored points, with equality exactly when no two
inserted points share an integer voxel index. -/
theorem claim_C8 {α : Type} [LinearOrderedField α] [FloorRing α]
    (pts : List (Vec3 α)) (vs : α) (c : Vec3 α) (s : α) :
    get_voxel_count (denseVoxelGrid pts vs c s) ≤
      get_total_points (denseVoxelGrid pts vs c s) ∧
    (get_voxel_count (denseVoxelGrid pts vs c s) =
        get_total_points (denseVoxelGrid pts vs c s) ↔
      (pts.map (point_to_voxel_index (grid_min_of c s) vs)).Nodup) := by
  rw [get_voxel_count_dense, get_total_points_dense]
  have hlen : (pts.map (point_to_voxel_index (grid_min_of c s) vs)).length =
      pts.length := List.length_map _ _
  constructor
  · calc (pts.map (point_to_voxel_index (grid_min_of c s) vs)).toFinset.card ≤
        (pts.map (point_to_voxel_index (grid_min_of c s) vs)).length :=
          List.toFinset_card_le _
      _ = pts.length := hlen
  · rw [List.card_toFinset, ← hlen]
    constructor
    · intro hl
      rw [← List.dedup_eq_self]
      exact List.Sublist.eq_of_length (List.dedup_sublist _) hl
    · intro h
      rw [h.dedup]

/-- C10: every tree obtained from a fresh root by an arbitrary sequence of
`insert_point` calls (any points, any depth limits) has a node count of the
form `1 + 8·k` — each subdivision allocates all 8 children at once — and is
therefore congruent to 1 modulo 8. -/
theorem claim_C10 {α : Type} [LinearOrderedField α] (P : OctParams α)
    (c : Vec3 α) (s : α) (l : List (Vec3 α × ℕ)) :
    (∃ k, count_octree_nodes (insert_many P (OctreeNode.init c s) l) = 1 + 8 * k) ∧
    count_octree_nodes (insert_many P (OctreeNode.init c s) l) % 8 = 1 := by
  obtain ⟨k, hk⟩ := @countNodes_insert_many α _ P (OctreeNode.init c s) l
  have hinit : count_octree_nodes (OctreeNode.init c s) = 1 := rfl
  rw [hinit] at hk
  exact ⟨⟨k, hk⟩, by omega⟩

/-- C4, amended: for every tree built from a fresh root by insertions that
all use the same depth limit `d`, a further `insert_point` with limit `d`
descends exactly `d` levels (root = depth 0), the node it reaches is a leaf
at the moment the log-odds update is applied, the update is applied exactly
to that node, and the node is still a leaf immediately after the insertion.
(The unrestricted claim over every tree state is false: see the
counterexample with mixed depth limits.) -/
theorem claim_C4_amended {α : Type} [LinearOrderedField α] (P : OctParams α)
    (pts : List (Vec3 α)) (p : Vec3 α) (d : ℕ) (c : Vec3 α) (s : α) :
    (insertTrace (build_octree P pts d c s) p d).length = d ∧
    (targetNode (build_octree P pts d c s) p d).is_leaf = true ∧
    nodeAt (insert_point P (build_octree P pts d c s) p d)
        (insertTrace (build_octree P pts d c s) p d) =
      some (update_log_odds P (targetNode (build_octree P pts d c s) p d) true) ∧
    (update_log_odds P (targetNode (build_octree P pts d c s) p d) true).is_leaf =
      true := by
  refine ⟨insertTrace_length d _ p, targetNode_is_leaf (UD_build pts d c s) p,
    nodeAt_insert_point_trace d _ p, ?_⟩
  rw [update_is_leaf]
  exact targetNode_is_leaf (UD_build pts d c s) p

/-- C4, counterexample: the claim quantifies over every tree state, but when
depth limits are mixed the update can land on an internal node.  Insert
(1,1,1) with depth limit 2 into a fresh root of center (0,0,0) and size 10,
then insert (1,1,1) again with depth limit 1: the descent ends at the
depth-1 child that the first insertion subdivided, so the log-odds update is
applied to a node that is not a leaf, and it is not a leaf after the
insertion either. -/
theorem claim_C4_counterexample :
    (targetNode (insert_point ratParams (OctreeNode.init (⟨0, 0, 0⟩ : Vec3 ℚ) 10)
        ⟨1, 1, 1⟩ 2) ⟨1, 1, 1⟩ 1).is_leaf = false ∧
    (update_log_odds ratParams
        (targetNode (insert_point ratParams (OctreeNode.init (⟨0, 0, 0⟩ : Vec3 ℚ) 10)
          ⟨1, 1, 1⟩ 2) ⟨1, 1, 1⟩ 1) true).is_leaf = false := by
  have hsh : (1 : ℕ) ||| 1 <<< 1 ||| 1 <<< 2 = 7 := by decide
  have hidx : childIndex (⟨0, 0, 0⟩ : Vec3 ℚ) ⟨1, 1, 1⟩ = 7 := by
    norm_num [childIndex, hsh]
  have hstep : ∀ (n : OctreeNode ℚ) (p : Vec3 ℚ) (d : ℕ),
      (insert_point ratParams n p (d + 1)).is_leaf = false := by
    intro n p d
    rw [insert_point_succ]
    exact setChild_is_leaf (prep_is_leaf n) _ _
  have h2 : insert_point ratParams (OctreeNode.init (⟨0, 0, 0⟩ : Vec3 ℚ) 10) ⟨1, 1, 1⟩ 2 =
      (prep (OctreeNode.init (⟨0, 0, 0⟩ : Vec3 ℚ) 10)).setChild 7
        (insert_point ratParams
          ((prep (OctreeNode.init (⟨0, 0, 0⟩ : Vec3 ℚ) 10)).getChildD 7) ⟨1, 1, 1⟩ 1) := by
    rw [show (2 : ℕ) = 1 + 1 from rfl, insert_point_succ]
    rw [prep_center, show (OctreeNode.init (⟨0, 0, 0⟩ : Vec3 ℚ) 10).center = ⟨0, 0, 0⟩
      from rfl, hidx]
  have hT : targetNode (insert_point ratParams (OctreeNode.init (⟨0, 0, 0⟩ : Vec3 ℚ) 10)
      ⟨1, 1, 1⟩ 2) ⟨1, 1, 1⟩ 1 =
      insert_point ratParams
        ((prep (OctreeNode.init (⟨0, 0, 0⟩ : Vec3 ℚ) 10)).getChildD 7) ⟨1, 1, 1⟩ 1 := by
    rw [h2]
    have hnl : ((prep (OctreeNode.init (⟨0, 0, 0⟩ : Vec3 ℚ) 10)).setChild 7
        (insert_point ratParams
          ((prep (OctreeNode.init (⟨0, 0, 0⟩ : Vec3 ℚ) 10)).getChildD 7)
          ⟨1, 1, 1⟩ 1)).is_leaf = false :=
      setChild_is_leaf (prep_is_leaf _) _ _
    rw [show (1 : ℕ) = 0 + 1 from rfl, targetNode_succ, prep_of_not_leaf hnl,
      setChild_center, prep_center,
      show (OctreeNode.init (⟨0, 0, 0⟩ : Vec3 ℚ) 10).center = ⟨0, 0, 0⟩ from rfl, hidx,
      targetNode_zero]
    exact getChildD_eq (getChild_setChild_self (prep_is_leaf _) (by norm_num) _)
  rw [hT]
  exact ⟨hstep _ _ 0, by rw [update_is_leaf]; exact hstep _ _ 0⟩

/-- C5: inserting the single point (1,1,1) with depth limit 1 into a fresh
root centered at (0,0,0) with size 10 (with the program's real constants)
produces exactly the predicted tree: one subdivision, the root internal with
8 leaf children of size 5, the observation landing on the child centered at
(2.5, 2.5, 2.5) whose log-odds is ln(0.7/0.3); `count_octree_nodes` returns
9 and `count_octree_occupied_leaves` returns 1. -/
theorem claim_C5 :
    insert_point octreeConstants (OctreeNode.init ⟨0, 0, 0⟩ 10) ⟨1, 1, 1⟩ 1 =
      c5ScenarioTree ∧
    count_octree_nodes c5ScenarioTree = 9 ∧
    count_octree_occupied_leaves c5ScenarioTree = 1 ∧
    c5ScenarioTree.getChild 7 =
      some (OctreeNode.leaf ⟨5 / 2, 5 / 2, 5 / 2⟩ 5 (Real.log (0.7 / 0.3))) ∧
    (5 / 2 : ℝ) = 2.5 := by
  have hsh : (1 : ℕ) ||| 1 <<< 1 ||| 1 <<< 2 = 7 := by decide
  have hidx : childIndex (⟨0, 0, 0⟩ : Vec3 ℝ) ⟨1, 1, 1⟩ = 7 := by
    norm_num [childIndex, hsh]
  have hprep : prep (OctreeNode.init (⟨0, 0, 0⟩ : Vec3 ℝ) 10) =
      OctreeNode.node ⟨0, 0, 0⟩ 10 0
        (OctreeNode.leaf ⟨-(5 / 2), -(5 / 2), -(5 / 2)⟩ 5 0)
        (OctreeNode.leaf ⟨-(5 / 2), -(5 / 2), 5 / 2⟩ 5 0)
        (OctreeNode.leaf ⟨-(5 / 2), 5 / 2, -(5 / 2)⟩ 5 0)
        (OctreeNode.leaf ⟨-(5 / 2), 5 / 2, 5 / 2⟩ 5 0)
        (OctreeNode.leaf ⟨5 / 2, -(5 / 2), -(5 / 2)⟩ 5 0)
        (OctreeNode.leaf ⟨5 / 2, -(5 / 2), 5 / 2⟩ 5 0)
        (OctreeNode.leaf ⟨5 / 2, 5 / 2, -(5 / 2)⟩ 5 0)
        (OctreeNode.leaf ⟨5 / 2, 5 / 2, 5 / 2⟩ 5 0) := by
    norm_num [prep, OctreeNode.init, OctreeNode.is_leaf, OctreeNode.subdivide, vadd,
      OctreeNode.center, OctreeNode.size, OctreeNode.log_odds, Vec3.mk.injEq]
  have hupd : update_log_odds octreeConstants
      (OctreeNode.leaf (⟨5 / 2, 5 / 2, 5 / 2⟩ : Vec3 ℝ) 5 0) true =
      OctreeNode.leaf ⟨5 / 2, 5 / 2, 5 / 2⟩ 5 (Real.log (0.7 / 0.3)) := by
    unfold update_log_odds
    simp only [OctreeNode.log_odds, OctreeNode.setLogOdds, if_pos,
      OctreeNode.leaf.injEq, zero_add]
    refine ⟨trivial, trivial, ?_⟩
    have hmin : octreeConstants.CLAMP_MIN ≤ octreeConstants.L_OCC :=
      le_trans (by norm_num [octreeConstants]) L_OCC_pos.le
    have hmax : octreeConstants.L_OCC ≤ octreeConstants.CLAMP_MAX := by
      rw [show octreeConstants.CLAMP_MAX = (3.5 : ℝ) from rfl]
      exact L_OCC_le
    rw [max_eq_left hmin, min_eq_left hmax, octreeConstants_L_OCC]
  have htree : insert_point octreeConstants (OctreeNode.init ⟨0, 0, 0⟩ 10) ⟨1, 1, 1⟩ 1 =
      c5ScenarioTree := by
    rw [show (1 : ℕ) = 0 + 1 from rfl, insert_point_succ, hprep, center_node, hidx]
    rw [insert_point_zero]
    simp only [OctreeNode.getChildD, OctreeNode.getChild, OctreeNode.childList]
    norm_num
    rw [hupd]
    simp [OctreeNode.setChild, c5ScenarioTree]
  refine ⟨htree, rfl, ?_, rfl, by norm_num⟩
  have hpos : (0 : ℝ) < Real.log (0.7 / 0.3) := Real.log_pos (by norm_num)
  simp [c5ScenarioTree, count_octree_occupied_leaves, lt_self_iff_false, hpos]

/-- C6: the log-odds update adds L_OCC = ln(0.7/0.3) for an occupied
observation and L_FREE = ln(0.4/0.6) for a free one, then clamps to
[−3.5, 3.5]; consequently the result of every update — and hence every
log-odds value stored anywhere in a built tree, and the value after any
nonempty sequence of updates — lies in [−3.5, 3.5]. -/
theorem claim_C6 :
    octreeConstants.L_OCC = Real.log (0.7 / 0.3) ∧
    octreeConstants.L_FREE = Real.log (0.4 / 0.6) ∧
    octreeConstants.CLAMP_MIN = -3.5 ∧
    octreeConstants.CLAMP_MAX = 3.5 ∧
    (∀ (n : OctreeNode ℝ) (o : Bool),
      (update_log_odds octreeConstants n o).log_odds =
        min (max (n.log_odds +
          if o then Real.log (0.7 / 0.3) else Real.log (0.4 / 0.6)) (-3.5)) 3.5) ∧
    (∀ (n : OctreeNode ℝ) (o : Bool),
      -3.5 ≤ (update_log_odds octreeConstants n o).log_odds ∧
        (update_log_odds octreeConstants n o).log_odds ≤ 3.5) ∧
    (∀ (n : OctreeNode ℝ) (l : List Bool), l ≠ [] →
      -3.5 ≤ (l.foldl (fun t b => update_log_odds octreeConstants t b) n).log_odds ∧
        (l.foldl (fun t b => update_log_odds octreeConstants t b) n).log_odds ≤ 3.5) ∧
    (∀ (pts : List (Vec3 ℝ)) (d : ℕ) (c : Vec3 ℝ) (s : ℝ) (q : List ℕ)
      (m : OctreeNode ℝ),
      nodeAt (build_octree octreeConstants pts d c s) q = some m →
      -3.5 ≤ m.log_odds ∧ m.log_odds ≤ 3.5) := by
  have hlh : octreeConstants.CLAMP_MIN ≤ octreeConstants.CLAMP_MAX := by
    norm_num [octreeConstants]
  have h0 : octreeConstants.CLAMP_MIN ≤ (0 : ℝ) := by norm_num [octreeConstants]
  have h1 : (0 : ℝ) ≤ octreeConstants.CLAMP_MAX := by norm_num [octreeConstants]
  refine ⟨octreeConstants_L_OCC, octreeConstants_L_FREE, rfl, rfl, ?_, ?_, ?_, ?_⟩
  · intro n o
    rw [update_log_odds_val]
    cases o <;> simp [octreeConstants_L_OCC, octreeConstants_L_FREE] <;> rfl
  · exact fun n o => update_log_odds_mem hlh n o
  · exact fun n l hl => update_foldl_mem hlh n hl
  · exact fun pts d c s q m hm => oddsBounded_nodeAt (oddsBounded_build h0 h1 pts d c s) hm

/-- C6, witness: the bound applied to the singleton update sequence. -/
theorem claim_C6_witness :
    ([true] : List Bool) ≠ [] ∧
    (-3.5 ≤ (([true] : List Bool).foldl
        (fun t b => update_log_odds octreeConstants t b)
        (OctreeNode.init ⟨0, 0, 0⟩ 1)).log_odds ∧
      (([true] : List Bool).foldl (fun t b => update_log_odds octreeConstants t b)
        (OctreeNode.init ⟨0, 0, 0⟩ 1)).log_odds ≤ 3.5) :=
  ⟨by simp, claim_C6.2.2.2.2.2.2.1 (OctreeNode.init ⟨0, 0, 0⟩ 1) [true] (by simp)⟩

/-- C7: building either structure from a permutation of the point sequence
yields the same result: the octree (same parameters, fixed center, size and
depth) is literally equal, and the dense grid realizes the same
voxel-index-to-count mapping with equal voxel and total counts. -/
theorem claim_C7 {α : Type} [LinearOrderedField α] [FloorRing α] (P : OctParams α)
    {pts1 pts2 : List (Vec3 α)} (h : pts1.Perm pts2) (d : ℕ) (c : Vec3 α) (s : α)
    (vs : α) (gc : Vec3 α) (gs : α) :
    build_octree P pts1 d c s = build_octree P pts2 d c s ∧
    (∀ i : ℤ × ℤ × ℤ, gridCount (denseVoxelGrid pts1 vs gc gs) i =
      gridCount (denseVoxelGrid pts2 vs gc gs) i) ∧
    get_voxel_count (denseVoxelGrid pts1 vs gc gs) =
      get_voxel_count (denseVoxelGrid pts2 vs gc gs) ∧
    get_total_points (denseVoxelGrid pts1 vs gc gs) =
      get_total_points (denseVoxelGrid pts2 vs gc gs) := by
  have count_eq_of_perm : ∀ {l1 l2 : List (ℤ × ℤ × ℤ)}, l1.Perm l2 →
      ∀ i : ℤ × ℤ × ℤ, l1.count i = l2.count i := by
    intro l1 l2 hperm
    induction hperm with
    | nil => exact fun i => rfl
    | cons x _ ih => intro i; simp [List.count_cons, ih]
    | swap x y l => intro i; simp [List.count_cons]; omega
    | trans _ _ ih1 ih2 => intro i; rw [ih1, ih2]
  refine ⟨build_octree_perm h d c s, ?_, ?_, ?_⟩
  · intro i
    rw [gridCount_dense, gridCount_dense]
    exact count_eq_of_perm (h.map _) i
  · rw [get_voxel_count_dense, get_voxel_count_dense,
      List.toFinset_eq_of_perm _ _ (h.map _)]
  · rw [get_total_points_dense, get_total_points_dense, h.length_eq]

/-- C7, witness: order invariance applied to a concrete two-point swap. -/
theorem claim_C7_witness :
    ([(⟨1, 1, 1⟩ : Vec3 ℚ), ⟨0, 0, 0⟩]).Perm [⟨0, 0, 0⟩, ⟨1, 1, 1⟩] ∧
    (build_octree ratParams [(⟨1, 1, 1⟩ : Vec3 ℚ), ⟨0, 0, 0⟩] 1 ⟨0, 0, 0⟩ 10 =
        build_octree ratParams [(⟨0, 0, 0⟩ : Vec3 ℚ), ⟨1, 1, 1⟩] 1 ⟨0, 0, 0⟩ 10 ∧
      (∀ i : ℤ × ℤ × ℤ,
        gridCount (denseVoxelGrid [(⟨1, 1, 1⟩ : Vec3 ℚ), ⟨0, 0, 0⟩] 1 ⟨0, 0, 0⟩ 10) i =
          gridCount (denseVoxelGrid [(⟨0, 0, 0⟩ : Vec3 ℚ), ⟨1, 1, 1⟩] 1 ⟨0, 0, 0⟩ 10) i) ∧
      get_voxel_count (denseVoxelGrid [(⟨1, 1, 1⟩ : Vec3 ℚ), ⟨0, 0, 0⟩] 1 ⟨0, 0, 0⟩ 10) =
        get_voxel_count (denseVoxelGrid [(⟨0, 0, 0⟩ : Vec3 ℚ), ⟨1, 1, 1⟩] 1 ⟨0, 0, 0⟩ 10) ∧
      get_total_points (denseVoxelGrid [(⟨1, 1, 1⟩ : Vec3 ℚ), ⟨0, 0, 0⟩] 1 ⟨0, 0, 0⟩ 10) =
        get_total_points (denseVoxelGrid [(⟨0, 0, 0⟩ : Vec3 ℚ), ⟨1, 1, 1⟩] 1 ⟨0, 0, 0⟩ 10)) :=
  ⟨List.Perm.swap _ _ _,
    claim_C7 ratParams (List.Perm.swap _ _ _) 1 ⟨0, 0, 0⟩ 10 1 ⟨0, 0, 0⟩ 10⟩

/-- C9: `insert_point` only modifies nodes along the root-to-target descent
path.  Every node that existed before the call and whose index path is not a
prefix of the descent path is unchanged together with its entire subtree;
every pre-existing node strictly on the path keeps its center, size and
log-odds (only subdivision state can change); and the node at the full path,
when it existed before, receives exactly the occupied log-odds update. -/
theorem claim_C9 {α : Type} [LinearOrderedField α] (P : OctParams α)
    {t : OctreeNode α} {p : Vec3 α} {d : ℕ} {q : List ℕ} {x : OctreeNode α}
    (hx : nodeAt t q = some x) :
    (¬ q <+: insertTrace t p d → nodeAt (insert_point P t p d) q = some x) ∧
    (q <+: insertTrace t p d → q ≠ insertTrace t p d →
      ∃ y, nodeAt (insert_point P t p d) q = some y ∧ y.center = x.center ∧
        y.size = x.size ∧ y.log_odds = x.log_odds) ∧
    (q = insertTrace t p d →
      nodeAt (insert_point P t p d) q = some (update_log_odds P x true)) := by
  refine ⟨fun hq => nodeAt_insert_point_off_path hx hq,
    fun hq hne => nodeAt_insert_point_on_path hx hq hne, fun hq => ?_⟩
  subst hq
  rw [nodeAt_insert_point_trace, targetNode_eq_of_nodeAt_trace hx]

/-- C9, witness: the frame property applied to the tree obtained by one
depth-1 insertion of (1,1,1), the path [0] of its −X,−Y,−Z child, and a
second insertion of the same point. -/
theorem claim_C9_witness :
    nodeAt (insert_point ratParams (OctreeNode.init (⟨0, 0, 0⟩ : Vec3 ℚ) 10)
        ⟨1, 1, 1⟩ 1) [0] =
      some (OctreeNode.leaf ⟨-(5 / 2), -(5 / 2), -(5 / 2)⟩ 5 0) ∧
    ((¬ [0] <+: insertTrace (insert_point ratParams
          (OctreeNode.init (⟨0, 0, 0⟩ : Vec3 ℚ) 10) ⟨1, 1, 1⟩ 1) ⟨1, 1, 1⟩ 1 →
        nodeAt (insert_point ratParams (insert_point ratParams
            (OctreeNode.init (⟨0, 0, 0⟩ : Vec3 ℚ) 10) ⟨1, 1, 1⟩ 1) ⟨1, 1, 1⟩ 1) [0] =
          some (OctreeNode.leaf ⟨-(5 / 2), -(5 / 2), -(5 / 2)⟩ 5 0)) ∧
      ([0] <+: insertTrace (insert_point ratParams
          (OctreeNode.init (⟨0, 0, 0⟩ : Vec3 ℚ) 10) ⟨1, 1, 1⟩ 1) ⟨1, 1, 1⟩ 1 →
        [0] ≠ insertTrace (insert_point ratParams
          (OctreeNode.init (⟨0, 0, 0⟩ : Vec3 ℚ) 10) ⟨1, 1, 1⟩ 1) ⟨1, 1, 1⟩ 1 →
        ∃ y, nodeAt (insert_point ratParams (insert_point ratParams
            (OctreeNode.init (⟨0, 0, 0⟩ : Vec3 ℚ) 10) ⟨1, 1, 1⟩ 1) ⟨1, 1, 1⟩ 1) [0] =
          some y ∧
          y.center = (OctreeNode.leaf (⟨-(5 / 2), -(5 / 2), -(5 / 2)⟩ : Vec3 ℚ) 5 0).center ∧
          y.size = (OctreeNode.leaf (⟨-(5 / 2), -(5 / 2), -(5 / 2)⟩ : Vec3 ℚ) 5 0).size ∧
          y.log_odds =
            (OctreeNode.leaf (⟨-(5 / 2), -(5 / 2), -(5 / 2)⟩ : Vec3 ℚ) 5 0).log_odds) ∧
      ([0] = insertTrace (insert_point ratParams
          (OctreeNode.init (⟨0, 0, 0⟩ : Vec3 ℚ) 10) ⟨1, 1, 1⟩ 1) ⟨1, 1, 1⟩ 1 →
        nodeAt (insert_point ratParams (insert_point ratParams
            (OctreeNode.init (⟨0, 0, 0⟩ : Vec3 ℚ) 10) ⟨1, 1, 1⟩ 1) ⟨1, 1, 1⟩ 1) [0] =
          some (update_log_odds ratParams
            (OctreeNode.leaf ⟨-(5 / 2), -(5 / 2), -(5 / 2)⟩ 5 0) true))) := by
  have hx : nodeAt (insert_point ratParams (OctreeNode.init (⟨0, 0, 0⟩ : Vec3 ℚ) 10)
      ⟨1, 1, 1⟩ 1) [0] =
      some (OctreeNode.leaf ⟨-(5 / 2), -(5 / 2), -(5 / 2)⟩ 5 0) := by
    norm_num [insert_point, update_log_odds, childIndex, prep, nodeAt,
      OctreeNode.init, OctreeNode.is_leaf, OctreeNode.subdivide, OctreeNode.center,
      OctreeNode.size, OctreeNode.log_odds, OctreeNode.getChildD, OctreeNode.getChild,
      OctreeNode.childList, OctreeNode.setChild, OctreeNode.setLogOdds, vadd, ratParams]
  exact ⟨hx, claim_C9 ratParams hx⟩
